import Mathlib

/-!
Verification development for the `ag-drift` racing-game core
(`src/common/Turn.js`).  The single nontrivial module of the repository is
the per-tick state-transition class `Turn`; this file shallowly embeds its
data model and operations and proves the specified properties about them.

Modelling conventions:
* JS sparse arrays become `List (Option α)`; `getO`/`setO`/`delO` mirror
  indexing, assignment (which pads with holes) and `delete` (which leaves a
  hole without shrinking).
* JS numbers that matter to the logic (positions, velocities, times, the
  phase counter) become `ℚ`; slot ids become `ℕ`; checkpoints and laps
  become `ℤ`.
* Angles are stored in units of π: the source's `-Math.PI / 2` is `-(1/2)`
  and a 90° turn adds `±(1/2)`.
* The p2 physics engine is external.  A body keeps the fields the core
  reads/writes (position, velocity, angle, angular velocity, accumulated
  force, angular force); `applyForceLocal` accumulates local-frame force
  vectors componentwise (the engine's local→world rotation happens inside
  the opaque step).  `world.step` is an arbitrary per-slot function
  `step : ℕ → Body → Body`, universally quantified, so every behaviour of
  the real solver (including collision coupling) is an instance.
  World-attachment bookkeeping (`world.addBody`) is not tracked: bodies at
  vessel-free slots are never observed by the core.
* The track grid is a function `ℤ → ℤ → Option CellVal`: `none` is an
  absent/falsy cell (the source's `' '` default), `CellVal.other` a
  non-numeric cell (`Number(...)` yields `NaN`), `CellVal.num n` a numeric
  checkpoint label.
* Named constants from `constants.js` (not under src/) are gathered in a
  `Config` record and quantified over.
-/

namespace AgDrift

/-- Match phases, from `C.GAME_STATE` in `constants.js`. -/
inductive GameState
  | IN_PROGRESS
  | FINISH_COUNTDOWN
  | RESULTS_SCREEN
deriving DecidableEq, Repr

/-- The six player-control flags carried by input events. -/
inductive InputKind
  | gas
  | boost
  | leanL
  | leanR
  | turnL
  | turnR
deriving DecidableEq, Repr

/-- A queued player-input event: `{type, val}` in the source. -/
structure GameEvent where
  type : InputKind
  val : Bool
deriving DecidableEq, Repr

/-- Administrative (server) events: `SPAWN_PLAYER` / `DESTROY_PLAYER`,
with `val` the slot, plus username/color payload for spawns. -/
inductive SEvent
  | spawn (val : ℕ) (username : String) (color : ℕ)
  | destroy (val : ℕ)
deriving DecidableEq, Repr

/-- Modelled from the spec: `PlayerInput.js` is not under src/.  The spec
describes per-player control flags (gas, boost, lean-left, lean-right,
turn-left, turn-right), all false in a freshly constructed input. -/
structure PlayerInput where
  gas : Bool
  boost : Bool
  leanL : Bool
  leanR : Bool
  turnL : Bool
  turnR : Bool
deriving DecidableEq, Repr

/-- `new PlayerInput()`: the all-false input state. -/
def PlayerInput.init : PlayerInput :=
  ⟨false, false, false, false, false, false⟩

/-- Modelled from the spec: `PlayerInput.applyPlayerEvent` is not under
src/.  The spec says an input event is a level-set instruction — it sets
the flag named by its type to its carried value. -/
def PlayerInput.applyPlayerEvent (inp : PlayerInput) (ev : GameEvent) : PlayerInput :=
  match ev.type with
  | .gas => { inp with gas := ev.val }
  | .boost => { inp with boost := ev.val }
  | .leanL => { inp with leanL := ev.val }
  | .leanR => { inp with leanR := ev.val }
  | .turnL => { inp with turnL := ev.val }
  | .turnR => { inp with turnR := ev.val }

/-- Track-grid cell content as observed through
`Number((map[ci] || {})[cj] || ' ')`: a numeric checkpoint label, or a
non-numeric (NaN-producing) value. `none` at the lookup site is an
absent/falsy cell. -/
inductive CellVal
  | num (n : ℤ)
  | other
deriving DecidableEq, Repr

/-- The checkpoint identifier a grid cell yields: `some n` when the cell
holds a numeric label, `none` when the cell is absent or non-numeric
(`isNaN(checkpoint)` in the source). -/
def checkpointAt (map : ℤ → ℤ → Option CellVal) (ci cj : ℤ) : Option ℤ :=
  match map ci cj with
  | some (.num n) => some n
  | _ => none

/-- A p2 rigid body, restricted to the fields the core reads or writes.
Mass, shape, damping, fixed-rotation are invariant per vessel class and
never consulted by the core's logic. -/
structure Body where
  position : ℚ × ℚ
  velocity : ℚ × ℚ
  angle : ℚ
  angularVelocity : ℚ
  forceL : ℚ × ℚ
  angularForce : ℚ
deriving DecidableEq, Repr

/-- A vessel ("Ship"): per-player simulation state. -/
structure Ship where
  position : ℚ × ℚ
  velocity : ℚ × ℚ
  angle : ℚ
  username : String
  color : ℕ
  input : PlayerInput
  checkpoint : ℤ
  lap : ℤ
  currentLaptime : ℤ
  laptimes : List ℚ
deriving DecidableEq, Repr

/-- Constants from `constants.js` (not under src/), quantified over. -/
structure Config where
  FORCE : ℚ
  CELL_EDGE : ℚ
  FINISH_COUNTDOWN_S : ℚ
  RESULTS_SCREEN_S : ℚ
deriving DecidableEq, Repr

/-- The core state container. -/
structure Turn where
  ships : List (Option Ship)
  events : List (Option (List GameEvent))
  serverEvents : List SEvent
  state : GameState
  counter : ℚ
deriving DecidableEq, Repr

/-! ### Sparse-array primitives -/

/-- Read a JS sparse array: out-of-range and holes both read as `none`
(`undefined`). -/
def getO {α : Type _} : List (Option α) → ℕ → Option α
  | [], _ => none
  | x :: _, 0 => x
  | _ :: xs, n + 1 => getO xs n

/-- JS assignment `arr[i] = v`: extends the array with holes if `i` is
beyond the current length. -/
def setO {α : Type _} : List (Option α) → ℕ → Option α → List (Option α)
  | [], 0, a => [a]
  | [], n + 1, a => none :: setO [] n a
  | _ :: xs, 0, a => a :: xs
  | x :: xs, n + 1, a => x :: setO xs n a

/-- JS `delete arr[i]`: leaves a hole, never changes the length. -/
def delO {α : Type _} : List (Option α) → ℕ → List (Option α)
  | [], _ => []
  | _ :: xs, 0 => none :: xs
  | x :: xs, n + 1 => x :: delO xs n

/-- Head of a sparse array (`none` when empty). -/
def headO {α : Type _} : List (Option α) → Option α
  | [] => none
  | x :: _ => x

/-- Build the array `[f 0, f 1, …, f (n-1)]`, with `k` the index base. -/
def rangeMapAux {α : Type _} (f : ℕ → Option α) : ℕ → ℕ → List (Option α)
  | _, 0 => []
  | k, n + 1 => f k :: rangeMapAux f (k + 1) n

/-- Build the array `[f 0, f 1, …, f (n-1)]`. -/
def rangeMap {α : Type _} (f : ℕ → Option α) (n : ℕ) : List (Option α) :=
  rangeMapAux f 0 n

@[simp] theorem getO_nil {α : Type _} (i : ℕ) : getO ([] : List (Option α)) i = none := by
  cases i <;> rfl

@[simp] theorem getO_cons_zero {α : Type _} (x : Option α) (xs : List (Option α)) :
    getO (x :: xs) 0 = x := rfl

@[simp] theorem getO_cons_succ {α : Type _} (x : Option α) (xs : List (Option α)) (n : ℕ) :
    getO (x :: xs) (n + 1) = getO xs n := rfl

theorem getO_eq_none_of_length_le {α : Type _} :
    ∀ (l : List (Option α)) (i : ℕ), l.length ≤ i → getO l i = none := by
  intro l
  induction l with
  | nil => intro i _; simp
  | cons x xs ih =>
    intro i h
    cases i with
    | zero => simp at h
    | succ n => simpa using ih n (by simpa using h)

theorem lt_length_of_getO_eq_some {α : Type _} {l : List (Option α)} {i : ℕ} {a : α}
    (h : getO l i = some a) : i < l.length := by
  by_contra hc
  rw [getO_eq_none_of_length_le l i (by omega)] at h
  exact Option.noConfusion h

theorem getO_setO_self {α : Type _} :
    ∀ (l : List (Option α)) (i : ℕ) (a : Option α), getO (setO l i a) i = a := by
  intro l
  induction l with
  | nil =>
    intro i
    induction i with
    | zero => intro a; rfl
    | succ n ih => intro a; simpa [setO] using ih a
  | cons x xs ih =>
    intro i a
    cases i with
    | zero => rfl
    | succ n => simpa [setO] using ih n a

theorem getO_setO_ne {α : Type _} :
    ∀ (l : List (Option α)) (i j : ℕ) (a : Option α), j ≠ i →
      getO (setO l i a) j = getO l j := by
  intro l
  induction l with
  | nil =>
    intro i
    induction i with
    | zero =>
      intro j a hj
      cases j with
      | zero => exact absurd rfl hj
      | succ m => simp [setO]
    | succ n ih =>
      intro j a hj
      cases j with
      | zero => rfl
      | succ m => simpa [setO] using ih m a (by omega)
  | cons x xs ih =>
    intro i j a hj
    cases i with
    | zero =>
      cases j with
      | zero => exact absurd rfl hj
      | succ m => rfl
    | succ n =>
      cases j with
      | zero => rfl
      | succ m => simpa [setO] using ih n m a (by omega)

theorem setO_eq_self_of_getO {α : Type _} :
    ∀ (l : List (Option α)) (i : ℕ) (a : Option α), getO l i = a → a.isSome →
      setO l i a = l := by
  intro l
  induction l with
  | nil =>
    intro i a h hs
    simp at h
    subst h
    simp at hs
  | cons x xs ih =>
    intro i a h hs
    cases i with
    | zero =>
      simp at h
      subst h
      rfl
    | succ n =>
      simp at h
      simpa [setO] using ih n a h hs

theorem getO_delO_self {α : Type _} :
    ∀ (l : List (Option α)) (i : ℕ), getO (delO l i) i = none := by
  intro l
  induction l with
  | nil => intro i; simp [delO]
  | cons x xs ih =>
    intro i
    cases i with
    | zero => rfl
    | succ n => simpa [delO] using ih n

theorem getO_delO_ne {α : Type _} :
    ∀ (l : List (Option α)) (i j : ℕ), j ≠ i → getO (delO l i) j = getO l j := by
  intro l
  induction l with
  | nil => intro i j _; simp [delO]
  | cons x xs ih =>
    intro i j hj
    cases i with
    | zero =>
      cases j with
      | zero => exact absurd rfl hj
      | succ m => rfl
    | succ n =>
      cases j with
      | zero => rfl
      | succ m => simpa [delO] using ih n m (by omega)

theorem getO_rangeMapAux {α : Type _} (f : ℕ → Option α) :
    ∀ (n k i : ℕ), getO (rangeMapAux f k n) i = if i < n then f (k + i) else none := by
  intro n
  induction n with
  | zero => intro k i; simp [rangeMapAux]
  | succ m ih =>
    intro k i
    cases i with
    | zero => simp [rangeMapAux]
    | succ j =>
      simp only [rangeMapAux, getO_cons_succ, ih (k + 1) j]
      by_cases h : j < m
      · rw [if_pos h, if_pos (by omega)]
        congr 1
        omega
      · rw [if_neg h, if_neg (by omega)]

theorem getO_rangeMap {α : Type _} (f : ℕ → Option α) (n i : ℕ) :
    getO (rangeMap f n) i = if i < n then f i else none := by
  simpa using getO_rangeMapAux f n 0 i

theorem length_rangeMapAux {α : Type _} (f : ℕ → Option α) :
    ∀ (n k : ℕ), (rangeMapAux f k n).length = n := by
  intro n
  induction n with
  | zero => intro k; rfl
  | succ m ih => intro k; simpa [rangeMapAux] using ih (k + 1)

theorem length_rangeMap {α : Type _} (f : ℕ → Option α) (n : ℕ) :
    (rangeMap f n).length = n :=
  length_rangeMapAux f n 0

theorem headO_drop {α : Type _} :
    ∀ (l : List (Option α)) (i : ℕ), headO (l.drop i) = getO l i := by
  intro l
  induction l with
  | nil => intro i; simp [headO]
  | cons x xs ih =>
    intro i
    cases i with
    | zero => rfl
    | succ n => simpa using ih n

theorem getO_append_right {α : Type _} :
    ∀ (l₁ l₂ : List (Option α)) (i : ℕ), getO (l₁ ++ l₂) (l₁.length + i) = getO l₂ i := by
  intro l₁
  induction l₁ with
  | nil => intro l₂ i; simp
  | cons x xs ih =>
    intro l₂ i
    have : (x :: xs).length + i = (xs.length + i) + 1 := by simp; omega
    rw [this]
    simpa using ih l₂ i

theorem getO_append_left {α : Type _} :
    ∀ (l₁ l₂ : List (Option α)) (i : ℕ), i < l₁.length → getO (l₁ ++ l₂) i = getO l₁ i := by
  intro l₁
  induction l₁ with
  | nil => intro l₂ i h; simp at h
  | cons x xs ih =>
    intro l₂ i h
    cases i with
    | zero => rfl
    | succ n => simpa using ih l₂ n (by simpa using h)

/-! ### Spawn geometry, body lifecycle -/

/-- `positionForShipId` (Turn.js lines 37–41): slot `k` spawns at
`[98 + 3k, 52]` for even `k` and `[98 + 3k, 48]` for odd `k`. -/
def positionForShipId (shipId : ℕ) : ℚ × ℚ :=
  let dx : ℚ := (shipId : ℚ) * 3
  let dy : ℚ := if shipId % 2 = 0 then 0 else -4
  (98 + dx, 52 + dy)

/-- `resetBody` (Turn.js lines 10–35) restricted to the modelled fields:
kinematics, angular velocity and accumulated forces are zeroed; listener,
id and world bookkeeping is not part of the model (mass/shape/damping are
deliberately untouched by the source as well). -/
def resetBody (b : Body) : Body :=
  { b with
    position := (0, 0)
    velocity := (0, 0)
    angle := 0
    angularVelocity := 0
    forceL := (0, 0) }

/-- The body the create/remove loop allocates when a vessel has no body
(Turn.js lines 129–141): a fresh body at the neutral pose `[102, 52]` with
angle `-π/2`. -/
def defaultBody : Body :=
  { position := (102, 52)
    velocity := (0, 0)
    angle := -(1/2)
    angularVelocity := 0
    forceL := (0, 0)
    angularForce := 0 }

/-- The body a SPAWN_PLAYER event allocates (Turn.js lines 158–164). -/
def spawnBody (shipId : ℕ) : Body :=
  { position := positionForShipId shipId
    velocity := (0, 0)
    angle := -(1/2)
    angularVelocity := 0
    forceL := (0, 0)
    angularForce := 0 }

/-- The vessel a SPAWN_PLAYER event constructs (Turn.js lines 174–185):
the fresh body's pose, a fresh all-false input, `checkpoint = 1`,
`lap = 0`, `currentLaptime = 0`, `laptimes = [0]`. -/
def spawnShip (shipId : ℕ) (username : String) (color : ℕ) : Ship :=
  { position := positionForShipId shipId
    velocity := (0, 0)
    angle := -(1/2)
    username := username
    color := color
    input := PlayerInput.init
    checkpoint := 1
    lap := 0
    currentLaptime := 0
    laptimes := [0] }

/-! ### Event accumulation (`getFreeShipSlot`, `addEvents`, `addServerEvent`) -/

/-- Whether some queued SPAWN_PLAYER event reserves slot `k`
(the `reservedSlots` table of Turn.js lines 67–71). -/
def spawnReserved (sevs : List SEvent) (k : ℕ) : Bool :=
  sevs.any fun sev =>
    match sev with
    | .spawn v _ _ => v == k
    | .destroy _ => false

/-- The loop guard of `getFreeShipSlot` (Turn.js line 73): slot `k` is
taken when a vessel occupies it or a queued spawn reserves it. -/
def Turn.slotTaken (t : Turn) (k : ℕ) : Bool :=
  (getO t.ships k).isSome || spawnReserved t.serverEvents k

/-- A strict upper bound on every slot a queued SPAWN_PLAYER names. -/
def spawnBound (sevs : List SEvent) : ℕ :=
  (sevs.map fun sev =>
    match sev with
    | .spawn v _ _ => v + 1
    | .destroy _ => 0).sum

theorem spawn_lt_spawnBound {sevs : List SEvent} {v : ℕ} {u : String} {c : ℕ}
    (h : SEvent.spawn v u c ∈ sevs) : v < spawnBound sevs := by
  have hmem : v + 1 ∈ sevs.map fun sev =>
      match sev with
      | .spawn v _ _ => v + 1
      | .destroy _ => 0 := List.mem_map.mpr ⟨.spawn v u c, h, rfl⟩
  have hle := List.single_le_sum (l := sevs.map fun sev =>
      match sev with
      | .spawn v _ _ => v + 1
      | .destroy _ => 0) (fun x _ => Nat.zero_le x) _ hmem
  rw [spawnBound]
  omega

theorem Turn.exists_free (t : Turn) : ∃ k, t.slotTaken k = false := by
  refine ⟨t.ships.length + spawnBound t.serverEvents, ?_⟩
  rw [Turn.slotTaken]
  apply Bool.or_eq_false_iff.mpr
  constructor
  · rw [getO_eq_none_of_length_le _ _ (by omega)]
    rfl
  · rw [spawnReserved]
    apply List.any_eq_false.mpr
    intro sev hsev
    cases sev with
    | destroy v => simp
    | spawn v u c =>
      have := spawn_lt_spawnBound hsev
      simp only [beq_iff_eq]
      omega

/-- `getFreeShipSlot` (Turn.js lines 64–75): the least slot that is
neither occupied by a vessel nor reserved by a queued SPAWN_PLAYER. -/
def Turn.getFreeShipSlot (t : Turn) : ℕ :=
  Nat.find t.exists_free

/-- One step of the `addEvents` inner loop (Turn.js lines 85–107): scan
the queued events for the slot from most recent backward; if one of the
same type exists, append the new event only when the value differs,
otherwise append unconditionally.  Returns the queue and the accumulated
`changed` flag. -/
def pushEvent (l : List GameEvent) (changed : Bool) (ev : GameEvent) :
    List GameEvent × Bool :=
  match l.reverse.find? (fun ex => decide (ex.type = ev.type)) with
  | some ex => if ex.val ≠ ev.val then (l ++ [ev], true) else (l, changed)
  | none => (l ++ [ev], true)

/-- `addEvents` (Turn.js lines 77–110): fold the incoming events into the
slot's queue (materialising an empty queue for a vacant slot) and report
whether anything meaningful was recorded. -/
def Turn.addEvents (t : Turn) (shipId : ℕ) (evs : List GameEvent) : Turn × Bool :=
  let existing := (getO t.events shipId).getD []
  let folded := evs.foldl (fun p ev => pushEvent p.1 p.2 ev) (existing, false)
  ({ t with events := setO t.events shipId (some folded.1) }, folded.2)

/-- `addServerEvent` (Turn.js lines 112–118): append unconditionally; the
source always reports `true`. -/
def Turn.addServerEvent (t : Turn) (evs : List SEvent) : Turn :=
  { t with serverEvents := t.serverEvents ++ evs }

/-! ### The `evolve` pipeline (Turn.js lines 120–357), stage by stage -/

/-- Create / reset bodies (Turn.js lines 121–148): for every slot up to
`max(ships.length, bodies.length)`, a vessel without a body gets a fresh
default body, a vessel with a body gets it reset in place; vacant slots
keep whatever body they had. -/
def ensureBodies (ships : List (Option Ship)) (bodies : List (Option Body)) :
    List (Option Body) :=
  rangeMap (fun i =>
    match getO ships i with
    | some _ =>
      match getO bodies i with
      | some b => some (resetBody b)
      | none => some defaultBody
    | none => getO bodies i)
    (max ships.length bodies.length)

/-- Apply one server event (Turn.js lines 153–194): SPAWN_PLAYER installs
a fresh body and vessel at exactly the requested slot (overwriting any
occupant); DESTROY_PLAYER deletes the vessel and leaves the body. -/
def applySev (sb : List (Option Ship) × List (Option Body)) (sev : SEvent) :
    List (Option Ship) × List (Option Body) :=
  match sev with
  | .spawn v u c => (setO sb.1 v (some (spawnShip v u c)), setO sb.2 v (some (spawnBody v)))
  | .destroy v => (delO sb.1 v, sb.2)

/-- Consume the queued server events in order against a working copy of
the vessel list. -/
def applyServerEventsAll (sevs : List SEvent) (ships : List (Option Ship))
    (bodies : List (Option Body)) : List (Option Ship) × List (Option Body) :=
  sevs.foldl applySev (ships, bodies)

/-- Fold this tick's queued input events into a working input
(`playerEvents.forEach(input.applyPlayerEvent, input)`). -/
def foldEvents (evs : List GameEvent) (inp : PlayerInput) : PlayerInput :=
  evs.foldl PlayerInput.applyPlayerEvent inp

/-- Whether control is applied this tick (Turn.js lines 214–216): the
vessel has not finished racing and the match is actively racing.
`hfr lap checkpoint` is the external `Ship.hasFinishedRace` predicate. -/
def controlEligible (hfr : ℤ → ℤ → Bool) (state : GameState) (s : Ship) : Prop :=
  hfr s.lap s.checkpoint = false ∧
    (state = GameState.IN_PROGRESS ∨ state = GameState.FINISH_COUNTDOWN)

instance (hfr : ℤ → ℤ → Bool) (state : GameState) (s : Ship) :
    Decidable (controlEligible hfr state s) := by
  rw [controlEligible]
  infer_instance

/-- Per-slot input application (Turn.js lines 197–243): re-synchronise the
body from the vessel, zero its forces, clear the turn flags before folding
this tick's events, gate control on race eligibility, apply the 90° turns
and the local-frame thruster/lean forces, damp velocity by 0.99, and store
the resolved input back on the vessel. -/
def applyInputToSlot (cfg : Config) (hfr : ℤ → ℤ → Bool) (state : GameState)
    (evs : List GameEvent) (s : Ship) (b : Body) : Ship × Body :=
  let b1 : Body :=
    { b with
      position := s.position
      velocity := s.velocity
      angle := s.angle
      forceL := (0, 0)
      angularForce := 0 }
  let inp0 : PlayerInput := { s.input with turnL := false, turnR := false }
  if controlEligible hfr state s then
    let inp := foldEvents evs inp0
    let a1 := b1.angle + (if inp.turnL then -(1/2 : ℚ) else 0)
    let a2 := a1 + (if inp.turnR then (1/2 : ℚ) else 0)
    let boost : ℚ := if inp.gas then (if inp.boost then 2 else 1) else 0
    let f0 : ℚ × ℚ := (0, -(cfg.FORCE * boost))
    let f1 : ℚ × ℚ := if inp.leanR then (f0.1 + cfg.FORCE, f0.2) else f0
    let f2 : ℚ × ℚ := if inp.leanL then (f1.1 - cfg.FORCE, f1.2) else f1
    ({ s with input := inp },
     { b1 with
       angle := a2
       forceL := f2
       velocity := ((99/100 : ℚ) * b1.velocity.1, (99/100 : ℚ) * b1.velocity.2) })
  else
    ({ s with input := PlayerInput.init },
     { b1 with
       velocity := ((99/100 : ℚ) * b1.velocity.1, (99/100 : ℚ) * b1.velocity.2) })

/-- Input application over all occupied slots (Turn.js lines 197–243).
A live vessel without a body cannot occur inside `evolve` (the
create/remove loop and SPAWN both install bodies); such a slot is left
untouched here. -/
def applyInputs (cfg : Config) (hfr : ℤ → ℤ → Bool) (state : GameState)
    (events : List (Option (List GameEvent))) (ships : List (Option Ship))
    (bodies : List (Option Body)) : List (Option Ship) × List (Option Body) :=
  (rangeMap (fun i =>
      match getO ships i, getO bodies i with
      | some s, some b =>
        some (applyInputToSlot cfg hfr state ((getO events i).getD []) s b).1
      | os, _ => os)
    ships.length,
   rangeMap (fun i =>
      match getO ships i, getO bodies i with
      | some s, some b =>
        some (applyInputToSlot cfg hfr state ((getO events i).getD []) s b).2
      | _, _ => getO bodies i)
    bodies.length)

/-- The opaque `world.step(dt / 1000)` (Turn.js line 245): an arbitrary
per-slot transformation of the bodies. -/
def stepBodies (step : ℕ → Body → Body) (bodies : List (Option Body)) :
    List (Option Body) :=
  rangeMap (fun i => (getO bodies i).map (step i)) bodies.length

/-- Grid row of a body (`ci`, Turn.js line 251). -/
def cellRow (cfg : Config) (b : Body) : ℤ :=
  ⌊(b.position.2 + cfg.CELL_EDGE / 2) / cfg.CELL_EDGE⌋

/-- Grid column of a body (`cj`, Turn.js line 252). -/
def cellCol (cfg : Config) (b : Body) : ℤ :=
  ⌊(b.position.1 + cfg.CELL_EDGE / 2) / cfg.CELL_EDGE⌋

/-- Result of processing one slot of the post-step checkpoint/lap pass:
the mutated working-copy vessel (whose `lap`/`currentLaptime` feed the
end-of-tick all-finished check), the vessel snapshot for the next turn,
and the threaded match state and countdown. -/
structure SlotRes where
  mutS : Option Ship
  nextS : Option Ship
  state : GameState
  counter : ℚ
deriving DecidableEq, Repr

/-- The checkpoint-transition classification (Turn.js lines 271–303):
given the vessel, the post-step cell checkpoint `cp` and the accumulated
lap times `lt1`, produce (lap, currentLaptime, laptimes, state, counter).
Equal / ±1 transitions are no-ops, a jump past `old + 1` crosses the
finish line forward (lap++, possibly opening a new lap time and
triggering IN_PROGRESS → FINISH_COUNTDOWN on a newly finished race), a
jump below `old − 1` crosses it backward (lap--). -/
def lapTransition (cfg : Config) (hfr : ℤ → ℤ → Bool) (state : GameState)
    (counter : ℚ) (s : Ship) (cp : ℤ) (lt1 : List ℚ) :
    ℤ × ℤ × List ℚ × GameState × ℚ :=
  if cp = s.checkpoint ∨ cp = s.checkpoint - 1 ∨ cp = s.checkpoint + 1 then
    (s.lap, s.currentLaptime, lt1, state, counter)
  else if s.checkpoint + 1 < cp then
    let lapN := s.lap + 1
    let cln := if s.currentLaptime < lapN then (lapN, lt1 ++ [0])
      else (s.currentLaptime, lt1)
    if hfr s.lap s.checkpoint = false ∧ hfr lapN s.checkpoint = true ∧
        state = GameState.IN_PROGRESS then
      (lapN, cln.1, cln.2, GameState.FINISH_COUNTDOWN, cfg.FINISH_COUNTDOWN_S)
    else
      (lapN, cln.1, cln.2, state, counter)
  else
    (s.lap - 1, s.currentLaptime, lt1, state, counter)

/-- Checkpoint and lap detection for one slot (Turn.js lines 247–318). -/
def processShip (cfg : Config) (hfr : ℤ → ℤ → Bool) (map : ℤ → ℤ → Option CellVal)
    (dt : ℚ) (state : GameState) (counter : ℚ) (os : Option Ship) (ob : Option Body) :
    SlotRes :=
  match ob with
  | none => ⟨os, none, state, counter⟩
  | some b =>
    match os with
    | none => ⟨none, none, state, counter⟩
    | some s =>
      let oldCp := s.checkpoint
      let cp := (checkpointAt map (cellRow cfg b) (cellCol cfg b)).getD oldCp
      let idx := s.currentLaptime.toNat
      let lt1 :=
        if hfr s.lap s.checkpoint = false then
          s.laptimes.set idx (s.laptimes.getD idx 0 + dt / 1000)
        else s.laptimes
      let r := lapTransition cfg hfr state counter s cp lt1
      { mutS := some { s with lap := r.1, currentLaptime := r.2.1 }
        nextS := some
          { position := b.position
            velocity := b.velocity
            angle := b.angle
            username := s.username
            color := s.color
            input := s.input
            checkpoint := cp
            lap := r.1
            currentLaptime := r.2.1
            laptimes := r.2.2.1 }
        state := r.2.2.2.1
        counter := r.2.2.2.2 }

/-- Result of the whole checkpoint/lap pass. -/
structure ProcRes where
  mutS : List (Option Ship)
  nextS : List (Option Ship)
  state : GameState
  counter : ℚ
deriving DecidableEq, Repr

/-- The checkpoint/lap pass over all bodies (`bodies.map`, Turn.js lines
247–318), threading the match state and countdown in slot order. -/
def processAll (cfg : Config) (hfr : ℤ → ℤ → Bool) (map : ℤ → ℤ → Option CellVal)
    (dt : ℚ) : List (Option Body) → List (Option Ship) → GameState → ℚ → ProcRes
  | [], ships, state, counter => ⟨ships, [], state, counter⟩
  | ob :: bs, ships, state, counter =>
    let r := processShip cfg hfr map dt state counter (headO ships) ob
    let rest := processAll cfg hfr map dt bs ships.tail r.state r.counter
    ⟨r.mutS :: rest.mutS, r.nextS :: rest.nextS, rest.state, rest.counter⟩

/-- The all-finished test of the FINISH_COUNTDOWN branch (Turn.js line
325): vacant slots count as finished. -/
def shipFinished (hfr : ℤ → ℤ → Bool) (os : Option Ship) : Bool :=
  match os with
  | none => true
  | some s => hfr s.lap s.checkpoint

/-- The per-slot match reset of the RESULTS_SCREEN branch (Turn.js lines
335–344). -/
def resetShipAt (i : ℕ) (s : Ship) : Ship :=
  { s with
    position := positionForShipId i
    velocity := (0, 0)
    angle := -(1/2)
    checkpoint := 1
    lap := 0
    currentLaptime := 0
    laptimes := [0] }

/-- The match reset applied to the next vessel list. -/
def resetShips (ships : List (Option Ship)) : List (Option Ship) :=
  rangeMap (fun i => (getO ships i).map (resetShipAt i)) ships.length

/-- The vessel list and body pool after the create/remove loop and the
queued server events (Turn.js lines 121–194). -/
def evolveSB (t : Turn) (bodies : List (Option Body)) :
    List (Option Ship) × List (Option Body) :=
  applyServerEventsAll t.serverEvents t.ships (ensureBodies t.ships bodies)

/-- The vessel list and body pool after input application (Turn.js lines
197–243). -/
def evolveSB2 (t : Turn) (cfg : Config) (hfr : ℤ → ℤ → Bool)
    (bodies : List (Option Body)) : List (Option Ship) × List (Option Body) :=
  applyInputs cfg hfr t.state t.events (evolveSB t bodies).1 (evolveSB t bodies).2

/-- The body pool after the physics step (Turn.js line 245). -/
def evolveBodies (t : Turn) (cfg : Config) (hfr : ℤ → ℤ → Bool)
    (bodies : List (Option Body)) (step : ℕ → Body → Body) :
    List (Option Body) :=
  stepBodies step (evolveSB2 t cfg hfr bodies).2

/-- The checkpoint/lap pass of one `evolve` call (Turn.js lines 247–318). -/
def evolvePr (t : Turn) (cfg : Config) (hfr : ℤ → ℤ → Bool)
    (map : ℤ → ℤ → Option CellVal) (bodies : List (Option Body))
    (step : ℕ → Body → Body) (dt : ℚ) : ProcRes :=
  processAll cfg hfr map dt (evolveBodies t cfg hfr bodies step)
    (evolveSB2 t cfg hfr bodies).1 t.state t.counter

/-- The end-of-tick state machine (Turn.js lines 320–356): decrement the
countdown (rounded up), advance FINISH_COUNTDOWN to RESULTS_SCREEN when
it hits zero or every live vessel has finished, and reset the match when
RESULTS_SCREEN's countdown hits zero. -/
def evolveFinish (cfg : Config) (hfr : ℤ → ℤ → Bool) (pr : ProcRes) : Turn :=
  let cnt3 : ℚ := ((⌈pr.counter - 1⌉ : ℤ) : ℚ)
  match pr.state with
  | .FINISH_COUNTDOWN =>
    if cnt3 = 0 ∨ pr.mutS.all (shipFinished hfr) then
      ⟨pr.nextS, [], [], .RESULTS_SCREEN, cfg.RESULTS_SCREEN_S⟩
    else
      ⟨pr.nextS, [], [], .FINISH_COUNTDOWN, cnt3⟩
  | .RESULTS_SCREEN =>
    if cnt3 = 0 then
      ⟨resetShips pr.nextS, [], [], .IN_PROGRESS, cnt3⟩
    else
      ⟨pr.nextS, [], [], .RESULTS_SCREEN, cnt3⟩
  | .IN_PROGRESS => ⟨pr.nextS, [], [], .IN_PROGRESS, cnt3⟩

/-- `evolve` (Turn.js lines 120–357): one tick.  External collaborators
are parameters: `cfg` the constants, `hfr` the vessel's
`hasFinishedRace` predicate (over lap and checkpoint), `map` the track
grid, `bodies` the caller's body pool, `step` the physics step, `dt` the
elapsed milliseconds.  Returns the next turn with cleared event queues. -/
def Turn.evolve (t : Turn) (cfg : Config) (hfr : ℤ → ℤ → Bool)
    (map : ℤ → ℤ → Option CellVal) (bodies : List (Option Body))
    (step : ℕ → Body → Body) (dt : ℚ) : Turn :=
  evolveFinish cfg hfr (evolvePr t cfg hfr map bodies step dt)

/-! ### Reachability (states produced by the public operations) -/

/-- Turns reachable from a vessel-free turn by accumulating events and
evolving, over arbitrary external collaborators. -/
inductive Reachable : Turn → Prop
  | base (events : List (Option (List GameEvent))) (state : GameState) (counter : ℚ) :
      Reachable ⟨[], events, [], state, counter⟩
  | addEvents {t : Turn} (shipId : ℕ) (evs : List GameEvent) :
      Reachable t → Reachable (t.addEvents shipId evs).1
  | addServerEvent {t : Turn} (evs : List SEvent) :
      Reachable t → Reachable (t.addServerEvent evs)
  | evolve {t : Turn} (cfg : Config) (hfr : ℤ → ℤ → Bool)
      (map : ℤ → ℤ → Option CellVal) (bodies : List (Option Body))
      (step : ℕ → Body → Body) (dt : ℚ) :
      Reachable t → Reachable (t.evolve cfg hfr map bodies step dt)

/-! ### Shared concrete collaborators for witnesses and counterexamples -/

/-- A finish predicate that never fires. -/
def hfrNever : ℤ → ℤ → Bool := fun _ _ => false

/-- A finish predicate: the race is done after one completed lap. -/
def hfrOneLap : ℤ → ℤ → Bool := fun lap _ => decide (1 ≤ lap)

/-- An empty track grid. -/
def mapNone : ℤ → ℤ → Option CellVal := fun _ _ => none

/-- A grid whose cell (0, 0) holds the numeric checkpoint label 5. -/
def mapCp5 : ℤ → ℤ → Option CellVal := fun ci cj =>
  if ci = 0 ∧ cj = 0 then some (.num 5) else none

/-- A physics step that moves nothing. -/
def stepId : ℕ → Body → Body := fun _ b => b

/-- A concrete constants record. -/
def cfgC : Config := ⟨1, 2, 5, 7⟩

/-! ### C3 — slot reservation -/

/-- C3: `getFreeShipSlot` returns the lowest slot index that is neither
occupied by a live vessel nor named by any SPAWN_PLAYER event already
queued in `serverEvents`; in particular the returned index is in neither
set. -/
theorem getFreeShipSlot_spec (t : Turn) :
    getO t.ships t.getFreeShipSlot = none ∧
    (∀ v u c, SEvent.spawn v u c ∈ t.serverEvents → v ≠ t.getFreeShipSlot) ∧
    (∀ j, j < t.getFreeShipSlot → t.slotTaken j = true) := by
  have hspec : t.slotTaken t.getFreeShipSlot = false := Nat.find_spec t.exists_free
  rw [Turn.slotTaken] at hspec
  have hocc := (Bool.or_eq_false_iff.mp hspec).1
  have hres := (Bool.or_eq_false_iff.mp hspec).2
  refine ⟨Option.not_isSome_iff_eq_none.mp (by simp [hocc]), ?_, ?_⟩
  · intro v u c hmem
    have := List.any_eq_false.mp hres _ hmem
    simpa using this
  · intro j hj
    have := Nat.find_min t.exists_free hj
    simpa using this

/-! ### C6 — no-op input recording -/

/-- C6: recording a single event whose type and value coincide with the
most recently queued event of that type for the slot leaves the turn
unchanged and reports `false`. -/
theorem addEvents_noop (t : Turn) (shipId : ℕ) (ev : GameEvent)
    (l : List GameEvent) (ex : GameEvent)
    (hl : getO t.events shipId = some l)
    (hfind : l.reverse.find? (fun e => decide (e.type = ev.type)) = some ex)
    (hval : ex.val = ev.val) :
    t.addEvents shipId [ev] = (t, false) := by
  rw [Turn.addEvents, hl]
  simp only [Option.getD_some, List.foldl_cons, List.foldl_nil]
  rw [pushEvent, hfind]
  simp only [hval, ne_eq, not_true_eq_false, if_false]
  rw [setO_eq_self_of_getO t.events shipId (some l) hl rfl]

/-- A concrete turn with one queued gas event on slot 0. -/
def tC6 : Turn := ⟨[], [some [⟨InputKind.gas, true⟩]], [], .IN_PROGRESS, 0⟩

/-- C6 witness: re-recording the identical gas event on slot 0 of `tC6`
is a no-op. -/
theorem addEvents_noop_witness :
    tC6.addEvents 0 [⟨InputKind.gas, true⟩] = (tC6, false) :=
  addEvents_noop tC6 0 ⟨InputKind.gas, true⟩ [⟨InputKind.gas, true⟩]
    ⟨InputKind.gas, true⟩ (by decide) (by decide) (by decide)

/-! ### C9 — deterministic spawn state -/

/-- C9: a SPAWN_PLAYER event with resolved slot `k` creates the vessel at
the deterministic spawn pose — `x = 98 + 3k`, `y = 52` for even `k` and
`48` for odd `k` — with the fixed starting heading `-π/2`, zero velocity,
`checkpoint = 1`, `lap = 0`, `currentLaptime = 0`, `laptimes = [0]` and a
fresh all-false input. -/
theorem spawn_creates_deterministic_ship
    (sb : List (Option Ship) × List (Option Body)) (k : ℕ) (u : String) (c : ℕ) :
    getO (applySev sb (SEvent.spawn k u c)).1 k = some (spawnShip k u c) ∧
    (spawnShip k u c).position =
      (98 + 3 * (k : ℚ), if k % 2 = 0 then (52 : ℚ) else 48) ∧
    (spawnShip k u c).angle = -(1/2) ∧
    (spawnShip k u c).velocity = (0, 0) ∧
    (spawnShip k u c).input = PlayerInput.init ∧
    (spawnShip k u c).checkpoint = 1 ∧
    (spawnShip k u c).lap = 0 ∧
    (spawnShip k u c).currentLaptime = 0 ∧
    (spawnShip k u c).laptimes = [0] := by
  refine ⟨?_, ?_, rfl, rfl, rfl, rfl, rfl, rfl, rfl⟩
  · rw [applySev]
    exact getO_setO_self _ _ _
  · rw [spawnShip, positionForShipId]
    by_cases h : k % 2 = 0
    · simp only [h, if_pos rfl]
      norm_num
      ring
    · rw [if_neg h, if_neg h]
      norm_num
      ring

/-! ### C5 — spawn slot resolution inside `evolve` -/

/-- A concrete turn: slot 0 is occupied by alice while a SPAWN_PLAYER for
slot 0 (bob) is queued. -/
def tC5 : Turn := ⟨[some (spawnShip 0 "alice" 0)], [], [SEvent.spawn 0 "bob" 1],
  .IN_PROGRESS, 5⟩

/-- C5 counterexample: the transition function performs no collision
avoidance.  In `tC5` the queued SPAWN names a slot holding a live vessel,
yet after `evolve` the spawned vessel sits exactly there (the previous
occupant is gone). -/
theorem evolve_spawn_overwrites_occupied :
    getO tC5.ships 0 = some (spawnShip 0 "alice" 0) ∧
    tC5.serverEvents = [SEvent.spawn 0 "bob" 1] ∧
    getO (tC5.evolve cfgC hfrNever mapNone [] stepId 0).ships 0 =
      some (spawnShip 0 "bob" 1) := by
  refine ⟨rfl, rfl, ?_⟩
  norm_num [tC5, Turn.evolve, evolveFinish, evolvePr, evolveBodies, evolveSB2,
    evolveSB, applyServerEventsAll, applySev, ensureBodies, rangeMap,
    rangeMapAux, getO, setO, headO, applyInputs, applyInputToSlot, controlEligible,
    hfrNever, foldEvents, stepBodies, stepId, processAll, processShip, lapTransition,
    checkpointAt, mapNone, cellRow, cellCol, cfgC, spawnShip, spawnBody,
    positionForShipId, defaultBody, resetShips, shipFinished, PlayerInput.init,
    resetBody]

/-- C5 amended: `evolve` applies each SPAWN_PLAYER at exactly the slot it
names, overwriting any occupant; when several same-tick SPAWNs name one
slot the last one wins.  Collision avoidance is the caller's duty via
`getFreeShipSlot`. -/
theorem applyServerEvents_spawn_last_wins (sevs : List SEvent)
    (ships : List (Option Ship)) (bodies : List (Option Body))
    (v : ℕ) (u : String) (c : ℕ) :
    getO (applyServerEventsAll (sevs ++ [SEvent.spawn v u c]) ships bodies).1 v =
      some (spawnShip v u c) := by
  rw [applyServerEventsAll, List.foldl_append]
  simp only [List.foldl_cons, List.foldl_nil]
  rw [applySev]
  exact getO_setO_self _ _ _

/-! ### C4 — control gating -/

/-- C4: when the vessel has finished the race or the match phase is
neither IN_PROGRESS nor FINISH_COUNTDOWN, no control force or heading
change reaches the body and the working input is forced to all-false,
which is what gets stored on the vessel. -/
theorem applyInput_gate (cfg : Config) (hfr : ℤ → ℤ → Bool) (state : GameState)
    (evs : List GameEvent) (s : Ship) (b : Body)
    (h : ¬ controlEligible hfr state s) :
    (applyInputToSlot cfg hfr state evs s b).1 = { s with input := PlayerInput.init } ∧
    (applyInputToSlot cfg hfr state evs s b).2.angle = s.angle ∧
    (applyInputToSlot cfg hfr state evs s b).2.forceL = (0, 0) ∧
    (applyInputToSlot cfg hfr state evs s b).2.angularForce = 0 := by
  rw [applyInputToSlot]
  simp only [if_neg h]
  simp

/-- A vessel with every control flag held, for the gating witness. -/
def sC4 : Ship :=
  { spawnShip 0 "w" 0 with input := ⟨true, true, true, true, true, true⟩ }

/-- C4 witness: on the RESULTS_SCREEN phase the gate fires for `sC4`. -/
theorem applyInput_gate_witness :
    (applyInputToSlot cfgC hfrNever .RESULTS_SCREEN [⟨InputKind.gas, true⟩] sC4
        defaultBody).1 = { sC4 with input := PlayerInput.init } ∧
    (applyInputToSlot cfgC hfrNever .RESULTS_SCREEN [⟨InputKind.gas, true⟩] sC4
        defaultBody).2.angle = sC4.angle ∧
    (applyInputToSlot cfgC hfrNever .RESULTS_SCREEN [⟨InputKind.gas, true⟩] sC4
        defaultBody).2.forceL = (0, 0) ∧
    (applyInputToSlot cfgC hfrNever .RESULTS_SCREEN [⟨InputKind.gas, true⟩] sC4
        defaultBody).2.angularForce = 0 :=
  applyInput_gate cfgC hfrNever .RESULTS_SCREEN [⟨InputKind.gas, true⟩] sC4
    defaultBody (by decide)

/-! ### C7 — edge-triggered turning -/

theorem foldl_applyPlayerEvent_turnL (evs : List GameEvent) :
    ∀ inp : PlayerInput, (∀ e ∈ evs, e.type ≠ InputKind.turnL) →
      (List.foldl PlayerInput.applyPlayerEvent inp evs).turnL = inp.turnL := by
  induction evs with
  | nil => intro inp _; rfl
  | cons e rest ih =>
    intro inp h
    rw [List.foldl_cons]
    rw [ih _ (fun x hx => h x (List.mem_cons_of_mem e hx))]
    have he := h e (List.mem_cons_self e rest)
    cases hk : e.type
    case turnL => exact absurd hk he
    all_goals simp [PlayerInput.applyPlayerEvent, hk]

theorem foldl_applyPlayerEvent_turnR (evs : List GameEvent) :
    ∀ inp : PlayerInput, (∀ e ∈ evs, e.type ≠ InputKind.turnR) →
      (List.foldl PlayerInput.applyPlayerEvent inp evs).turnR = inp.turnR := by
  induction evs with
  | nil => intro inp _; rfl
  | cons e rest ih =>
    intro inp h
    rw [List.foldl_cons]
    rw [ih _ (fun x hx => h x (List.mem_cons_of_mem e hx))]
    have he := h e (List.mem_cons_self e rest)
    cases hk : e.type
    case turnR => exact absurd hk he
    all_goals simp [PlayerInput.applyPlayerEvent, hk]

theorem foldEvents_turnL_of_no_event (evs : List GameEvent) (inp : PlayerInput)
    (h : ∀ e ∈ evs, e.type ≠ InputKind.turnL) :
    (foldEvents evs inp).turnL = inp.turnL :=
  foldl_applyPlayerEvent_turnL evs inp h

theorem foldEvents_turnR_of_no_event (evs : List GameEvent) (inp : PlayerInput)
    (h : ∀ e ∈ evs, e.type ≠ InputKind.turnR) :
    (foldEvents evs inp).turnR = inp.turnR :=
  foldl_applyPlayerEvent_turnR evs inp h

/-- C7: the two turn flags are cleared before this tick's events are
folded in, so when no turn event arrives in the current tick's queue the
stored input has both flags false and the body's heading is unchanged —
regardless of the flags held on the vessel's last input.  A turn is never
carried across ticks. -/
theorem applyInput_turn_edge_triggered (cfg : Config) (hfr : ℤ → ℤ → Bool)
    (state : GameState) (evs : List GameEvent) (s : Ship) (b : Body)
    (hL : ∀ e ∈ evs, e.type ≠ InputKind.turnL)
    (hR : ∀ e ∈ evs, e.type ≠ InputKind.turnR) :
    (applyInputToSlot cfg hfr state evs s b).1.input.turnL = false ∧
    (applyInputToSlot cfg hfr state evs s b).1.input.turnR = false ∧
    (applyInputToSlot cfg hfr state evs s b).2.angle = s.angle := by
  have hl : (foldEvents evs { s.input with turnL := false, turnR := false }).turnL =
      false := by simpa using foldEvents_turnL_of_no_event evs _ hL
  have hr : (foldEvents evs { s.input with turnL := false, turnR := false }).turnR =
      false := by simpa using foldEvents_turnR_of_no_event evs _ hR
  rw [applyInputToSlot]
  by_cases h : controlEligible hfr state s
  · simp only [if_pos h, hl, hr]
    norm_num
  · simp only [if_neg h]
    simp [PlayerInput.init]

/-- A vessel whose last stored input holds both turn flags. -/
def sC7 : Ship :=
  { spawnShip 0 "w" 0 with input := ⟨false, false, false, false, true, true⟩ }

/-- C7 witness: with only a gas event queued this tick, `sC7`'s held turn
flags do not fire again. -/
theorem applyInput_turn_edge_triggered_witness :
    (applyInputToSlot cfgC hfrNever .IN_PROGRESS [⟨InputKind.gas, true⟩] sC7
        defaultBody).1.input.turnL = false ∧
    (applyInputToSlot cfgC hfrNever .IN_PROGRESS [⟨InputKind.gas, true⟩] sC7
        defaultBody).1.input.turnR = false ∧
    (applyInputToSlot cfgC hfrNever .IN_PROGRESS [⟨InputKind.gas, true⟩] sC7
        defaultBody).2.angle = sC7.angle :=
  applyInput_turn_edge_triggered cfgC hfrNever .IN_PROGRESS [⟨InputKind.gas, true⟩]
    sC7 defaultBody (by decide) (by decide)

/-! ### State-machine structure of the checkpoint pass -/

theorem lapTransition_state_cases (cfg : Config) (hfr : ℤ → ℤ → Bool)
    (state : GameState) (counter : ℚ) (s : Ship) (cp : ℤ) (lt1 : List ℚ) :
    ((lapTransition cfg hfr state counter s cp lt1).2.2.2.1 = state ∧
     (lapTransition cfg hfr state counter s cp lt1).2.2.2.2 = counter) ∨
    (state = GameState.IN_PROGRESS ∧
     (lapTransition cfg hfr state counter s cp lt1).2.2.2.1 =
       GameState.FINISH_COUNTDOWN ∧
     (lapTransition cfg hfr state counter s cp lt1).2.2.2.2 =
       cfg.FINISH_COUNTDOWN_S) := by
  rw [lapTransition]
  by_cases h1 : cp = s.checkpoint ∨ cp = s.checkpoint - 1 ∨ cp = s.checkpoint + 1
  · rw [if_pos h1]
    exact Or.inl ⟨rfl, rfl⟩
  · rw [if_neg h1]
    by_cases h2 : s.checkpoint + 1 < cp
    · rw [if_pos h2]
      by_cases h3 : hfr s.lap s.checkpoint = false ∧
          hfr (s.lap + 1) s.checkpoint = true ∧ state = GameState.IN_PROGRESS
      · rw [if_pos h3]
        exact Or.inr ⟨h3.2.2, rfl, rfl⟩
      · rw [if_neg h3]
        exact Or.inl ⟨rfl, rfl⟩
    · rw [if_neg h2]
      exact Or.inl ⟨rfl, rfl⟩

theorem processShip_state_cases (cfg : Config) (hfr : ℤ → ℤ → Bool)
    (map : ℤ → ℤ → Option CellVal) (dt : ℚ) (state : GameState) (counter : ℚ)
    (os : Option Ship) (ob : Option Body) :
    ((processShip cfg hfr map dt state counter os ob).state = state ∧
     (processShip cfg hfr map dt state counter os ob).counter = counter) ∨
    (state = GameState.IN_PROGRESS ∧
     (processShip cfg hfr map dt state counter os ob).state =
       GameState.FINISH_COUNTDOWN ∧
     (processShip cfg hfr map dt state counter os ob).counter =
       cfg.FINISH_COUNTDOWN_S) := by
  cases ob with
  | none => exact Or.inl ⟨rfl, rfl⟩
  | some b =>
    cases os with
    | none => exact Or.inl ⟨rfl, rfl⟩
    | some s => exact lapTransition_state_cases cfg hfr state counter s _ _

theorem processShip_preserve (cfg : Config) (hfr : ℤ → ℤ → Bool)
    (map : ℤ → ℤ → Option CellVal) (dt : ℚ) (state : GameState) (counter : ℚ)
    (os : Option Ship) (ob : Option Body) (h : state ≠ GameState.IN_PROGRESS) :
    (processShip cfg hfr map dt state counter os ob).state = state ∧
    (processShip cfg hfr map dt state counter os ob).counter = counter := by
  rcases processShip_state_cases cfg hfr map dt state counter os ob with hc | hc
  · exact hc
  · exact absurd hc.1 h

theorem processAll_nil (cfg : Config) (hfr : ℤ → ℤ → Bool)
    (map : ℤ → ℤ → Option CellVal) (dt : ℚ) (ships : List (Option Ship))
    (state : GameState) (counter : ℚ) :
    processAll cfg hfr map dt [] ships state counter = ⟨ships, [], state, counter⟩ :=
  rfl

theorem processAll_cons (cfg : Config) (hfr : ℤ → ℤ → Bool)
    (map : ℤ → ℤ → Option CellVal) (dt : ℚ) (ob : Option Body)
    (bs : List (Option Body)) (ships : List (Option Ship)) (state : GameState)
    (counter : ℚ) :
    processAll cfg hfr map dt (ob :: bs) ships state counter =
      ⟨(processShip cfg hfr map dt state counter (headO ships) ob).mutS ::
         (processAll cfg hfr map dt bs ships.tail
           (processShip cfg hfr map dt state counter (headO ships) ob).state
           (processShip cfg hfr map dt state counter (headO ships) ob).counter).mutS,
       (processShip cfg hfr map dt state counter (headO ships) ob).nextS ::
         (processAll cfg hfr map dt bs ships.tail
           (processShip cfg hfr map dt state counter (headO ships) ob).state
           (processShip cfg hfr map dt state counter (headO ships) ob).counter).nextS,
       (processAll cfg hfr map dt bs ships.tail
         (processShip cfg hfr map dt state counter (headO ships) ob).state
         (processShip cfg hfr map dt state counter (headO ships) ob).counter).state,
       (processAll cfg hfr map dt bs ships.tail
         (processShip cfg hfr map dt state counter (headO ships) ob).state
         (processShip cfg hfr map dt state counter (headO ships) ob).counter).counter⟩ :=
  rfl

theorem processAll_preserve (cfg : Config) (hfr : ℤ → ℤ → Bool)
    (map : ℤ → ℤ → Option CellVal) (dt : ℚ) :
    ∀ (bs : List (Option Body)) (ships : List (Option Ship)) (state : GameState)
      (counter : ℚ), state ≠ GameState.IN_PROGRESS →
      (processAll cfg hfr map dt bs ships state counter).state = state ∧
      (processAll cfg hfr map dt bs ships state counter).counter = counter := by
  intro bs
  induction bs with
  | nil => intro ships state counter _; exact ⟨rfl, rfl⟩
  | cons ob rest ih =>
    intro ships state counter h
    have hps := processShip_preserve cfg hfr map dt state counter (headO ships) ob h
    have hrec := ih ships.tail
      (processShip cfg hfr map dt state counter (headO ships) ob).state
      (processShip cfg hfr map dt state counter (headO ships) ob).counter
      (by rw [hps.1]; exact h)
    constructor
    · show (processAll cfg hfr map dt rest ships.tail
        (processShip cfg hfr map dt state counter (headO ships) ob).state
        (processShip cfg hfr map dt state counter (headO ships) ob).counter).state = state
      rw [hrec.1, hps.1]
    · show (processAll cfg hfr map dt rest ships.tail
        (processShip cfg hfr map dt state counter (headO ships) ob).state
        (processShip cfg hfr map dt state counter (headO ships) ob).counter).counter = counter
      rw [hrec.2, hps.2]

theorem processAll_state_progress (cfg : Config) (hfr : ℤ → ℤ → Bool)
    (map : ℤ → ℤ → Option CellVal) (dt : ℚ) :
    ∀ (bs : List (Option Body)) (ships : List (Option Ship)) (state : GameState)
      (counter : ℚ),
      (processAll cfg hfr map dt bs ships state counter).state =
        GameState.RESULTS_SCREEN →
      state = GameState.RESULTS_SCREEN := by
  intro bs
  induction bs with
  | nil => intro ships state counter h; exact h
  | cons ob rest ih =>
    intro ships state counter h
    rw [processAll_cons] at h
    have hrec := ih ships.tail _ _ h
    rcases processShip_state_cases cfg hfr map dt state counter (headO ships) ob with
      hc | hc
    · rw [hc.1] at hrec
      exact hrec
    · rw [hc.2.1] at hrec
      exact absurd hrec (by simp)

theorem processAll_length_nextS (cfg : Config) (hfr : ℤ → ℤ → Bool)
    (map : ℤ → ℤ → Option CellVal) (dt : ℚ) :
    ∀ (bs : List (Option Body)) (ships : List (Option Ship)) (state : GameState)
      (counter : ℚ),
      (processAll cfg hfr map dt bs ships state counter).nextS.length = bs.length := by
  intro bs
  induction bs with
  | nil => intro ships state counter; rfl
  | cons ob rest ih =>
    intro ships state counter
    rw [processAll_cons]
    simpa using ih ships.tail _ _

/-! ### C2 — match reset on RESULTS_SCREEN timeout -/

theorem getO_resetShips (l : List (Option Ship)) (i : ℕ) :
    getO (resetShips l) i = (getO l i).map (resetShipAt i) := by
  rw [resetShips, getO_rangeMap]
  by_cases h : i < l.length
  · rw [if_pos h]
  · rw [if_neg h, getO_eq_none_of_length_le l i (by omega)]
    rfl

theorem evolveFinish_results (cfg : Config) (hfr : ℤ → ℤ → Bool) (pr : ProcRes)
    (hps : pr.state = GameState.RESULTS_SCREEN)
    (hc : (⌈pr.counter - 1⌉ : ℤ) = 0) :
    evolveFinish cfg hfr pr = ⟨resetShips pr.nextS, [], [], .IN_PROGRESS, 0⟩ := by
  cases pr with
  | mk mu nx st cnt =>
    cases hps
    have hq : ((⌈cnt - 1⌉ : ℤ) : ℚ) = 0 := by
      rw [show (⌈cnt - 1⌉ : ℤ) = 0 from hc]
      norm_num
    simp only [evolveFinish]
    rw [if_pos hq, hq]

theorem evolvePr_results (t : Turn) (cfg : Config) (hfr : ℤ → ℤ → Bool)
    (map : ℤ → ℤ → Option CellVal) (bodies : List (Option Body))
    (step : ℕ → Body → Body) (dt : ℚ)
    (hst : t.state = GameState.RESULTS_SCREEN) :
    (evolvePr t cfg hfr map bodies step dt).state = GameState.RESULTS_SCREEN ∧
    (evolvePr t cfg hfr map bodies step dt).counter = t.counter := by
  have h := processAll_preserve cfg hfr map dt
    (evolveBodies t cfg hfr bodies step) (evolveSB2 t cfg hfr bodies).1
    t.state t.counter (by rw [hst]; simp)
  rw [evolvePr, h.1, h.2, hst]
  exact ⟨rfl, rfl⟩

/-- C2: on a RESULTS_SCREEN turn whose countdown reaches zero during
`evolve`, the output phase is IN_PROGRESS and every live vessel in the
output is at its per-slot spawn pose with the fixed heading, zero
velocity, `checkpoint = 1`, `lap = 0`, `currentLaptime = 0`,
`laptimes = [0]`. -/
theorem evolve_results_reset (t : Turn) (cfg : Config) (hfr : ℤ → ℤ → Bool)
    (map : ℤ → ℤ → Option CellVal) (bodies : List (Option Body))
    (step : ℕ → Body → Body) (dt : ℚ)
    (hst : t.state = GameState.RESULTS_SCREEN)
    (hcd : (⌈t.counter - 1⌉ : ℤ) = 0) :
    (t.evolve cfg hfr map bodies step dt).state = GameState.IN_PROGRESS ∧
    ∀ i s, getO (t.evolve cfg hfr map bodies step dt).ships i = some s →
      s.position = positionForShipId i ∧ s.velocity = (0, 0) ∧
      s.angle = -(1/2) ∧ s.checkpoint = 1 ∧ s.lap = 0 ∧
      s.currentLaptime = 0 ∧ s.laptimes = [0] := by
  have hpr := evolvePr_results t cfg hfr map bodies step dt hst
  have hev : t.evolve cfg hfr map bodies step dt =
      ⟨resetShips (evolvePr t cfg hfr map bodies step dt).nextS, [], [],
        .IN_PROGRESS, 0⟩ := by
    rw [Turn.evolve]
    exact evolveFinish_results cfg hfr _ hpr.1 (by rw [hpr.2]; exact hcd)
  rw [hev]
  refine ⟨rfl, ?_⟩
  intro i s hs
  replace hs : getO (resetShips (evolvePr t cfg hfr map bodies step dt).nextS) i =
    some s := hs
  rw [getO_resetShips] at hs
  cases hnx : getO (evolvePr t cfg hfr map bodies step dt).nextS i with
  | none =>
    rw [hnx] at hs
    exact Option.noConfusion hs
  | some a =>
    rw [hnx] at hs
    replace hs : some (resetShipAt i a) = some s := hs
    have hsa : s = resetShipAt i a := by
      injection hs with h
      exact h.symm
    subst hsa
    exact ⟨rfl, rfl, rfl, rfl, rfl, rfl, rfl⟩

/-- A concrete turn for the C2 witness: one vessel, RESULTS_SCREEN, the
countdown about to reach zero. -/
def tC2 : Turn := ⟨[some (spawnShip 0 "w" 0)], [], [], .RESULTS_SCREEN, 1⟩

/-- C2 witness: evolving `tC2` re-enters IN_PROGRESS. -/
theorem evolve_results_reset_witness :
    (tC2.evolve cfgC hfrNever mapNone [] stepId 0).state = GameState.IN_PROGRESS :=
  (evolve_results_reset tC2 cfgC hfrNever mapNone [] stepId 0 rfl
    (by norm_num [tC2])).1

/-! ### C8 — absent or non-numeric grid cells -/

theorem processShip_lookup_none (cfg : Config) (hfr : ℤ → ℤ → Bool)
    (map : ℤ → ℤ → Option CellVal) (dt : ℚ) (state : GameState) (counter : ℚ)
    (s : Ship) (b : Body)
    (hnone : checkpointAt map (cellRow cfg b) (cellCol cfg b) = none) :
    ∃ s', (processShip cfg hfr map dt state counter (some s) (some b)).nextS =
        some s' ∧
      s'.checkpoint = s.checkpoint ∧ s'.lap = s.lap ∧
      s'.currentLaptime = s.currentLaptime := by
  simp only [processShip, hnone, Option.getD_none, lapTransition, true_or, if_true]
  exact ⟨_, rfl, rfl, rfl, rfl⟩

theorem processAll_nextS_lookup_none (cfg : Config) (hfr : ℤ → ℤ → Bool)
    (map : ℤ → ℤ → Option CellVal) (dt : ℚ) :
    ∀ (bs : List (Option Body)) (ss : List (Option Ship)) (state : GameState)
      (counter : ℚ) (i : ℕ) (b : Body) (s : Ship),
      getO bs i = some b → getO ss i = some s →
      checkpointAt map (cellRow cfg b) (cellCol cfg b) = none →
      ∃ s', getO (processAll cfg hfr map dt bs ss state counter).nextS i =
          some s' ∧ s'.checkpoint = s.checkpoint := by
  intro bs
  induction bs with
  | nil =>
    intro ss state counter i b s hb
    simp at hb
  | cons ob rest ih =>
    intro ss state counter i b s hb hs hnone
    cases i with
    | zero =>
      rw [getO_cons_zero] at hb
      subst hb
      have hhead : headO ss = some s := by
        cases ss with
        | nil => simp at hs
        | cons x xs => exact hs
      rw [processAll_cons]
      simp only [getO_cons_zero]
      rw [hhead]
      obtain ⟨s', hg, h1, h2, h3⟩ :=
        processShip_lookup_none cfg hfr map dt state counter s b hnone
      exact ⟨s', hg, h1⟩
    | succ j =>
      rw [getO_cons_succ] at hb
      have hs' : getO ss.tail j = some s := by
        cases ss with
        | nil => simp at hs
        | cons x xs => exact hs
      rw [processAll_cons]
      simp only [getO_cons_succ]
      exact ih ss.tail _ _ j b s hb hs' hnone

theorem evolveFinish_ships_no_reset (cfg : Config) (hfr : ℤ → ℤ → Bool)
    (pr : ProcRes)
    (h : pr.state = GameState.RESULTS_SCREEN → (⌈pr.counter - 1⌉ : ℤ) ≠ 0) :
    (evolveFinish cfg hfr pr).ships = pr.nextS := by
  cases pr with
  | mk mu nx st cnt =>
    cases st with
    | IN_PROGRESS => rfl
    | FINISH_COUNTDOWN =>
      simp only [evolveFinish]
      by_cases hc : ((⌈cnt - 1⌉ : ℤ) : ℚ) = 0 ∨ mu.all (shipFinished hfr) = true
      · rw [if_pos hc]
      · rw [if_neg hc]
    | RESULTS_SCREEN =>
      have hcnt := h rfl
      have hq : ¬ (((⌈cnt - 1⌉ : ℤ) : ℚ) = 0) := by
        intro hq0
        exact hcnt (by exact_mod_cast hq0)
      simp only [evolveFinish]
      rw [if_neg hq]

/-- C8 amended: a vessel whose post-step cell is absent or non-numeric
keeps its previous checkpoint through the checkpoint-detection pass, and
this value survives into the output turn provided the same call does not
fire the RESULTS_SCREEN match reset (which overwrites every checkpoint
to 1). -/
theorem evolve_lookup_none_checkpoint_unchanged (t : Turn) (cfg : Config)
    (hfr : ℤ → ℤ → Bool) (map : ℤ → ℤ → Option CellVal)
    (bodies : List (Option Body)) (step : ℕ → Body → Body) (dt : ℚ)
    (i : ℕ) (b : Body) (s : Ship)
    (hb : getO (evolveBodies t cfg hfr bodies step) i = some b)
    (hs : getO (evolveSB2 t cfg hfr bodies).1 i = some s)
    (hnone : checkpointAt map (cellRow cfg b) (cellCol cfg b) = none)
    (hres : t.state = GameState.RESULTS_SCREEN → (⌈t.counter - 1⌉ : ℤ) ≠ 0) :
    ∃ s', getO (t.evolve cfg hfr map bodies step dt).ships i = some s' ∧
      s'.checkpoint = s.checkpoint := by
  obtain ⟨s', hg, hcp⟩ := processAll_nextS_lookup_none cfg hfr map dt
    (evolveBodies t cfg hfr bodies step) (evolveSB2 t cfg hfr bodies).1
    t.state t.counter i b s hb hs hnone
  have hpr_imp : (evolvePr t cfg hfr map bodies step dt).state =
      GameState.RESULTS_SCREEN →
      (⌈(evolvePr t cfg hfr map bodies step dt).counter - 1⌉ : ℤ) ≠ 0 := by
    intro hprs
    have hts : t.state = GameState.RESULTS_SCREEN :=
      processAll_state_progress cfg hfr map dt
        (evolveBodies t cfg hfr bodies step) (evolveSB2 t cfg hfr bodies).1
        t.state t.counter hprs
    have hcounter := (processAll_preserve cfg hfr map dt
      (evolveBodies t cfg hfr bodies step) (evolveSB2 t cfg hfr bodies).1
      t.state t.counter (by rw [hts]; simp)).2
    rw [show (evolvePr t cfg hfr map bodies step dt).counter = t.counter from
      hcounter]
    exact hres hts
  refine ⟨s', ?_, hcp⟩
  rw [Turn.evolve, evolveFinish_ships_no_reset cfg hfr _ hpr_imp]
  exact hg

/-- A concrete turn for the C8 counterexample: a vessel at checkpoint 3,
RESULTS_SCREEN with the countdown about to reach zero. -/
def tC8 : Turn := ⟨[some { spawnShip 0 "x" 0 with checkpoint := 3 }], [], [],
  .RESULTS_SCREEN, 1⟩

/-- C8 counterexample: the vessel's post-step cell is absent (`mapNone`),
yet the output checkpoint is 1, not the previous 3 — the same-call match
reset overwrote it. -/
theorem evolve_reset_overrides_checkpoint :
    getO tC8.ships 0 = some { spawnShip 0 "x" 0 with checkpoint := 3 } ∧
    checkpointAt mapNone 26 49 = none ∧
    getO (tC8.evolve cfgC hfrNever mapNone [] stepId 0).ships 0 =
      some (spawnShip 0 "x" 0) ∧
    (spawnShip 0 "x" 0).checkpoint = 1 := by
  refine ⟨rfl, rfl, ?_, rfl⟩
  norm_num [tC8, Turn.evolve, evolveFinish, evolvePr, evolveBodies, evolveSB2,
    evolveSB, applyServerEventsAll, applySev, ensureBodies, rangeMap,
    rangeMapAux, getO, setO, headO, applyInputs, applyInputToSlot, controlEligible,
    hfrNever, foldEvents, stepBodies, stepId, processAll, processShip, lapTransition,
    checkpointAt, mapNone, cellRow, cellCol, cfgC, spawnShip, spawnBody,
    positionForShipId, defaultBody, resetShips, resetShipAt, shipFinished,
    PlayerInput.init, resetBody]

/-- A concrete turn for the C8 amended witness. -/
def tC8w : Turn := ⟨[some (spawnShip 0 "w" 0)], [], [], .IN_PROGRESS, 0⟩

/-- The body of `tC8w`'s vessel after input application and the identity
physics step. -/
def bC8w : Body :=
  { position := (98, 52)
    velocity := (0, 0)
    angle := -(1/2)
    angularVelocity := 0
    forceL := (0, 0)
    angularForce := 0 }

/-- C8 witness: with an empty grid the vessel of `tC8w` keeps
checkpoint 1 through `evolve`. -/
theorem evolve_lookup_none_checkpoint_unchanged_witness :
    ∃ s', getO (tC8w.evolve cfgC hfrNever mapNone [] stepId 0).ships 0 =
        some s' ∧ s'.checkpoint = (spawnShip 0 "w" 0).checkpoint :=
  evolve_lookup_none_checkpoint_unchanged tC8w cfgC hfrNever mapNone [] stepId 0
    0 bC8w (spawnShip 0 "w" 0)
    (by norm_num [tC8w, bC8w, evolveBodies, evolveSB2, evolveSB,
      applyServerEventsAll, applySev, ensureBodies, rangeMap, rangeMapAux, getO,
      setO, headO, applyInputs, applyInputToSlot, controlEligible, hfrNever,
      foldEvents, stepBodies, stepId, cfgC, spawnShip, spawnBody,
      positionForShipId, defaultBody, resetBody, PlayerInput.init])
    (by norm_num [tC8w, evolveSB2, evolveSB, applyServerEventsAll, applySev,
      ensureBodies, rangeMap, rangeMapAux, getO, setO, headO, applyInputs,
      applyInputToSlot, controlEligible, hfrNever, foldEvents, cfgC, spawnShip,
      spawnBody, positionForShipId, defaultBody, resetBody, PlayerInput.init])
    rfl
    (fun h => GameState.noConfusion h)

/-! ### C1 — crossing the finish line -/

theorem drop_eq_getO_cons {α : Type _} :
    ∀ (l : List (Option α)) (i : ℕ), i < l.length →
      l.drop i = getO l i :: l.drop (i + 1) := by
  intro l
  induction l with
  | nil => intro i h; simp at h
  | cons x xs ih =>
    intro i h
    cases i with
    | zero => simp
    | succ j => simpa using ih j (by simpa using h)

theorem processAll_split (cfg : Config) (hfr : ℤ → ℤ → Bool)
    (map : ℤ → ℤ → Option CellVal) (dt : ℚ) :
    ∀ (i : ℕ) (bs : List (Option Body)) (ss : List (Option Ship))
      (state : GameState) (counter : ℚ),
      processAll cfg hfr map dt bs ss state counter =
        ⟨(processAll cfg hfr map dt (bs.take i) (ss.take i) state counter).mutS ++
           (processAll cfg hfr map dt (bs.drop i) (ss.drop i)
             (processAll cfg hfr map dt (bs.take i) (ss.take i) state counter).state
             (processAll cfg hfr map dt (bs.take i) (ss.take i) state
               counter).counter).mutS,
         (processAll cfg hfr map dt (bs.take i) (ss.take i) state counter).nextS ++
           (processAll cfg hfr map dt (bs.drop i) (ss.drop i)
             (processAll cfg hfr map dt (bs.take i) (ss.take i) state counter).state
             (processAll cfg hfr map dt (bs.take i) (ss.take i) state
               counter).counter).nextS,
         (processAll cfg hfr map dt (bs.drop i) (ss.drop i)
           (processAll cfg hfr map dt (bs.take i) (ss.take i) state counter).state
           (processAll cfg hfr map dt (bs.take i) (ss.take i) state
             counter).counter).state,
         (processAll cfg hfr map dt (bs.drop i) (ss.drop i)
           (processAll cfg hfr map dt (bs.take i) (ss.take i) state counter).state
           (processAll cfg hfr map dt (bs.take i) (ss.take i) state
             counter).counter).counter⟩ := by
  intro i
  induction i with
  | zero =>
    intro bs ss state counter
    simp [processAll_nil]
  | succ i ih =>
    intro bs ss state counter
    cases bs with
    | nil =>
      simp [processAll_nil, List.take_append_drop]
    | cons ob rest =>
      have hhead : headO (ss.take (i + 1)) = headO ss := by
        cases ss <;> rfl
      have htail : (ss.take (i + 1)).tail = ss.tail.take i := by
        cases ss with
        | nil => simp
        | cons x xs => simp
      have hdrop : ss.drop (i + 1) = ss.tail.drop i := by
        cases ss with
        | nil => simp
        | cons x xs => simp
      rw [List.take_succ_cons, List.drop_succ_cons, hdrop]
      rw [processAll_cons]
      rw [processAll_cons]
      simp only [hhead, htail]
      rw [ih rest ss.tail _ _]
      simp [List.cons_append]

theorem processShip_finish_cross (cfg : Config) (hfr : ℤ → ℤ → Bool)
    (map : ℤ → ℤ → Option CellVal) (dt : ℚ) (counter : ℚ) (s : Ship) (b : Body)
    (cp : ℤ)
    (hcp : checkpointAt map (cellRow cfg b) (cellCol cfg b) = some cp)
    (hjump : s.checkpoint + 1 < cp)
    (hlap : s.currentLaptime < s.lap + 1)
    (hnew : hfr s.lap s.checkpoint = false)
    (hfin : hfr (s.lap + 1) s.checkpoint = true) :
    processShip cfg hfr map dt GameState.IN_PROGRESS counter (some s) (some b) =
      ⟨some { s with lap := s.lap + 1, currentLaptime := s.lap + 1 },
       some { position := b.position, velocity := b.velocity, angle := b.angle,
              username := s.username, color := s.color, input := s.input,
              checkpoint := cp, lap := s.lap + 1, currentLaptime := s.lap + 1,
              laptimes := s.laptimes.set s.currentLaptime.toNat
                (s.laptimes.getD s.currentLaptime.toNat 0 + dt / 1000) ++ [0] },
       GameState.FINISH_COUNTDOWN, cfg.FINISH_COUNTDOWN_S⟩ := by
  simp only [processShip, hcp, Option.getD_some, lapTransition]
  rw [if_neg (by omega :
    ¬(cp = s.checkpoint ∨ cp = s.checkpoint - 1 ∨ cp = s.checkpoint + 1))]
  rw [if_pos hjump]
  rw [if_pos hlap]
  rw [if_pos ⟨hnew, hfin, trivial⟩]
  rw [if_pos hnew]

theorem evolveFinish_finish_stays (cfg : Config) (hfr : ℤ → ℤ → Bool)
    (pr : ProcRes) (hps : pr.state = GameState.FINISH_COUNTDOWN)
    (hc : ((⌈pr.counter - 1⌉ : ℤ) : ℚ) ≠ 0)
    (hall : pr.mutS.all (shipFinished hfr) = false) :
    evolveFinish cfg hfr pr =
      ⟨pr.nextS, [], [], .FINISH_COUNTDOWN, ((⌈pr.counter - 1⌉ : ℤ) : ℚ)⟩ := by
  cases pr with
  | mk mu nx st cnt =>
    cases hps
    simp only [evolveFinish]
    rw [if_neg (not_or.mpr ⟨hc, by simp [hall]⟩)]

@[simp] theorem headO_cons {α : Type _} (x : Option α) (xs : List (Option α)) :
    headO (x :: xs) = x := rfl

theorem getO_append_cons_at {α : Type _} (l1 : List (Option α)) (x : Option α)
    (l2 : List (Option α)) (i : ℕ) (h : l1.length = i) :
    getO (l1 ++ x :: l2) i = x := by
  subst h
  have := getO_append_right l1 (x :: l2) 0
  simpa using this

/-- C1 amended: when a live vessel's post-step cell holds a checkpoint
strictly greater than its old checkpoint plus 1, and the match state
threaded up to that slot is still IN_PROGRESS, the checkpoint pass
increments the lap, sets `currentLaptime` to the new lap and appends a
zero lap time (when the new lap exceeds `currentLaptime`), and — when the
vessel newly satisfies the finish predicate — sets the phase to
FINISH_COUNTDOWN with the configured duration.  The end-of-tick machine
then decrements the countdown (rounded up), so the OUTPUT turn carries
FINISH_COUNTDOWN with countdown `⌈duration − 1⌉` only provided that value
is nonzero and not every live vessel has finished; otherwise the same
call advances to RESULTS_SCREEN. -/
theorem evolve_finish_cross (t : Turn) (cfg : Config) (hfr : ℤ → ℤ → Bool)
    (map : ℤ → ℤ → Option CellVal) (bodies : List (Option Body))
    (step : ℕ → Body → Body) (dt : ℚ) (i : ℕ) (b : Body) (s : Ship) (cp : ℤ)
    (hb : getO (evolveBodies t cfg hfr bodies step) i = some b)
    (hs : getO (evolveSB2 t cfg hfr bodies).1 i = some s)
    (hstate : (processAll cfg hfr map dt
      ((evolveBodies t cfg hfr bodies step).take i)
      ((evolveSB2 t cfg hfr bodies).1.take i) t.state t.counter).state =
      GameState.IN_PROGRESS)
    (hcp : checkpointAt map (cellRow cfg b) (cellCol cfg b) = some cp)
    (hjump : s.checkpoint + 1 < cp)
    (hlap : s.currentLaptime < s.lap + 1)
    (hnew : hfr s.lap s.checkpoint = false)
    (hfin : hfr (s.lap + 1) s.checkpoint = true)
    (hcd : ((⌈cfg.FINISH_COUNTDOWN_S - 1⌉ : ℤ) : ℚ) ≠ 0)
    (hall : (evolvePr t cfg hfr map bodies step dt).mutS.all (shipFinished hfr) =
      false) :
    (evolvePr t cfg hfr map bodies step dt).state = GameState.FINISH_COUNTDOWN ∧
    (evolvePr t cfg hfr map bodies step dt).counter = cfg.FINISH_COUNTDOWN_S ∧
    getO (evolvePr t cfg hfr map bodies step dt).nextS i =
      some { position := b.position, velocity := b.velocity, angle := b.angle,
             username := s.username, color := s.color, input := s.input,
             checkpoint := cp, lap := s.lap + 1, currentLaptime := s.lap + 1,
             laptimes := s.laptimes.set s.currentLaptime.toNat
               (s.laptimes.getD s.currentLaptime.toNat 0 + dt / 1000) ++ [0] } ∧
    (t.evolve cfg hfr map bodies step dt).state = GameState.FINISH_COUNTDOWN ∧
    (t.evolve cfg hfr map bodies step dt).counter =
      ((⌈cfg.FINISH_COUNTDOWN_S - 1⌉ : ℤ) : ℚ) := by
  have hlenB : i < (evolveBodies t cfg hfr bodies step).length :=
    lt_length_of_getO_eq_some hb
  have hlenS : i < (evolveSB2 t cfg hfr bodies).1.length :=
    lt_length_of_getO_eq_some hs
  have hdropB : (evolveBodies t cfg hfr bodies step).drop i =
      some b :: (evolveBodies t cfg hfr bodies step).drop (i + 1) := by
    rw [drop_eq_getO_cons _ i hlenB, hb]
  have hdropS : (evolveSB2 t cfg hfr bodies).1.drop i =
      some s :: (evolveSB2 t cfg hfr bodies).1.drop (i + 1) := by
    rw [drop_eq_getO_cons _ i hlenS, hs]
  have hsplit := processAll_split cfg hfr map dt i
    (evolveBodies t cfg hfr bodies step) (evolveSB2 t cfg hfr bodies).1
    t.state t.counter
  rw [hdropB, hdropS, hstate, processAll_cons] at hsplit
  simp only [headO_cons, List.tail_cons] at hsplit
  rw [processShip_finish_cross cfg hfr map dt _ s b cp hcp hjump hlap hnew hfin]
    at hsplit
  have hrest := processAll_preserve cfg hfr map dt
    ((evolveBodies t cfg hfr bodies step).drop (i + 1))
    ((evolveSB2 t cfg hfr bodies).1.drop (i + 1))
    GameState.FINISH_COUNTDOWN cfg.FINISH_COUNTDOWN_S (by simp)
  have hprs : (evolvePr t cfg hfr map bodies step dt).state =
      GameState.FINISH_COUNTDOWN := by
    rw [evolvePr, hsplit]
    exact hrest.1
  have hprc : (evolvePr t cfg hfr map bodies step dt).counter =
      cfg.FINISH_COUNTDOWN_S := by
    rw [evolvePr, hsplit]
    exact hrest.2
  have hnext : getO (evolvePr t cfg hfr map bodies step dt).nextS i =
      some { position := b.position, velocity := b.velocity, angle := b.angle,
             username := s.username, color := s.color, input := s.input,
             checkpoint := cp, lap := s.lap + 1, currentLaptime := s.lap + 1,
             laptimes := s.laptimes.set s.currentLaptime.toNat
               (s.laptimes.getD s.currentLaptime.toNat 0 + dt / 1000) ++ [0] } := by
    rw [evolvePr, hsplit]
    exact getO_append_cons_at _ _ _ i
      (by rw [processAll_length_nextS, List.length_take]; omega)
  have hevolve := evolveFinish_finish_stays cfg hfr
    (evolvePr t cfg hfr map bodies step dt) hprs (by rw [hprc]; exact hcd) hall
  refine ⟨hprs, hprc, hnext, ?_, ?_⟩
  · rw [Turn.evolve, hevolve]
  · rw [Turn.evolve, hevolve]
    simp only [hprc]

/-- A grid whose every cell holds the numeric checkpoint label 5. -/
def mapAll5 : ℤ → ℤ → Option CellVal := fun _ _ => some (.num 5)

/-- A grid holding checkpoint 5 exactly at cell (26, 49) — the cell of
the slot-0 spawn pose under `cfgC`. -/
def mapCell : ℤ → ℤ → Option CellVal := fun ci cj =>
  if ci = 26 ∧ cj = 49 then some (.num 5) else none

/-- A concrete turn for the C1 counterexample: a single vessel about to
cross the finish line and thereby finish its race. -/
def tC1 : Turn := ⟨[some (spawnShip 0 "r" 0)], [], [], .IN_PROGRESS, 0⟩

/-- C1 counterexample: the lone vessel crosses the finish line (cell
value 5 > old checkpoint 1 + 1) and newly finishes while IN_PROGRESS,
yet the OUTPUT phase is RESULTS_SCREEN, not FINISH_COUNTDOWN — the
end-of-tick machine advances immediately because every live vessel has
finished (and the countdown is decremented in the same call). -/
theorem evolve_finish_cross_counterexample :
    tC1.state = GameState.IN_PROGRESS ∧
    getO tC1.ships 0 = some (spawnShip 0 "r" 0) ∧
    checkpointAt mapAll5 26 49 = some 5 ∧
    (spawnShip 0 "r" 0).checkpoint + 1 < 5 ∧
    hfrOneLap (spawnShip 0 "r" 0).lap (spawnShip 0 "r" 0).checkpoint = false ∧
    hfrOneLap ((spawnShip 0 "r" 0).lap + 1) (spawnShip 0 "r" 0).checkpoint =
      true ∧
    (tC1.evolve cfgC hfrOneLap mapAll5 [] stepId 1000).state =
      GameState.RESULTS_SCREEN ∧
    ¬ (tC1.evolve cfgC hfrOneLap mapAll5 [] stepId 1000).state =
      GameState.FINISH_COUNTDOWN := by
  have hst : (tC1.evolve cfgC hfrOneLap mapAll5 [] stepId 1000).state =
      GameState.RESULTS_SCREEN := by
    norm_num [tC1, Turn.evolve, evolveFinish, evolvePr, evolveBodies, evolveSB2,
      evolveSB, applyServerEventsAll, applySev, ensureBodies, rangeMap,
      rangeMapAux, getO, setO, headO, applyInputs, applyInputToSlot,
      controlEligible, hfrOneLap, foldEvents, stepBodies, stepId, processAll,
      processShip, lapTransition, checkpointAt, mapAll5, cellRow, cellCol, cfgC,
      spawnShip, spawnBody, positionForShipId, defaultBody, resetShips,
      resetShipAt, shipFinished, PlayerInput.init, resetBody, List.getD]
  refine ⟨rfl, rfl, rfl, by norm_num [spawnShip], by decide, by decide, hst, ?_⟩
  rw [hst]
  exact fun h => GameState.noConfusion h

/-- A concrete two-vessel turn for the C1 witness: slot 0 is about to
cross the finish line, slot 1 keeps racing. -/
def tC1w : Turn := ⟨[some (spawnShip 0 "r" 0), some (spawnShip 1 "q" 1)], [], [],
  .IN_PROGRESS, 0⟩

/-- C1 witness: in `tC1w` slot 0 crosses the finish line and newly
finishes; the output phase is FINISH_COUNTDOWN with countdown
`⌈5 − 1⌉ = 4` because slot 1 is still racing. -/
theorem evolve_finish_cross_witness :
    (evolvePr tC1w cfgC hfrOneLap mapCell [] stepId 1000).state =
      GameState.FINISH_COUNTDOWN ∧
    (evolvePr tC1w cfgC hfrOneLap mapCell [] stepId 1000).counter =
      cfgC.FINISH_COUNTDOWN_S ∧
    getO (evolvePr tC1w cfgC hfrOneLap mapCell [] stepId 1000).nextS 0 =
      some { position := bC8w.position, velocity := bC8w.velocity,
             angle := bC8w.angle, username := (spawnShip 0 "r" 0).username,
             color := (spawnShip 0 "r" 0).color,
             input := (spawnShip 0 "r" 0).input, checkpoint := 5,
             lap := (spawnShip 0 "r" 0).lap + 1,
             currentLaptime := (spawnShip 0 "r" 0).lap + 1,
             laptimes := (spawnShip 0 "r" 0).laptimes.set
               (spawnShip 0 "r" 0).currentLaptime.toNat
               ((spawnShip 0 "r" 0).laptimes.getD
                 (spawnShip 0 "r" 0).currentLaptime.toNat 0 + 1000 / 1000)
               ++ [0] } ∧
    (tC1w.evolve cfgC hfrOneLap mapCell [] stepId 1000).state =
      GameState.FINISH_COUNTDOWN ∧
    (tC1w.evolve cfgC hfrOneLap mapCell [] stepId 1000).counter =
      ((⌈cfgC.FINISH_COUNTDOWN_S - 1⌉ : ℤ) : ℚ) :=
  evolve_finish_cross tC1w cfgC hfrOneLap mapCell [] stepId 1000 0 bC8w
    (spawnShip 0 "r" 0) 5
    (by norm_num [tC1w, bC8w, evolveBodies, evolveSB2, evolveSB,
      applyServerEventsAll, applySev, ensureBodies, rangeMap, rangeMapAux, getO,
      setO, headO, applyInputs, applyInputToSlot, controlEligible, hfrOneLap,
      foldEvents, stepBodies, stepId, cfgC, spawnShip, spawnBody,
      positionForShipId, defaultBody, resetBody, PlayerInput.init])
    (by norm_num [tC1w, evolveSB2, evolveSB, applyServerEventsAll, applySev,
      ensureBodies, rangeMap, rangeMapAux, getO, setO, headO, applyInputs,
      applyInputToSlot, controlEligible, hfrOneLap, foldEvents, cfgC, spawnShip,
      spawnBody, positionForShipId, defaultBody, resetBody, PlayerInput.init])
    rfl
    (by norm_num [checkpointAt, mapCell, cellRow, cellCol, bC8w, cfgC])
    (by norm_num [spawnShip])
    (by norm_num [spawnShip])
    (by decide)
    (by decide)
    (by norm_num [cfgC])
    (by norm_num [tC1w, bC8w, evolvePr, evolveBodies, evolveSB2, evolveSB,
      applyServerEventsAll, applySev, ensureBodies, rangeMap, rangeMapAux, getO,
      setO, headO, applyInputs, applyInputToSlot, controlEligible, hfrOneLap,
      foldEvents, stepBodies, stepId, processAll, processShip, lapTransition,
      checkpointAt, mapCell, cellRow, cellCol, cfgC, spawnShip, spawnBody,
      positionForShipId, defaultBody, resetBody, PlayerInput.init, shipFinished,
      List.getD])

/-! ### C10 — the `currentLaptime` index invariant -/

/-- The race-progress invariant every live vessel maintains:
`currentLaptime` is a valid index into `laptimes` (namely the last one)
and `lap` never exceeds it. -/
def ShipOk (s : Ship) : Prop :=
  0 ≤ s.currentLaptime ∧ s.currentLaptime + 1 = (s.laptimes.length : ℤ) ∧
    s.lap ≤ s.currentLaptime

/-- Every live vessel of the turn satisfies `ShipOk`. -/
def TurnOk (t : Turn) : Prop :=
  ∀ i s, getO t.ships i = some s → ShipOk s

theorem shipOk_spawnShip (v : ℕ) (u : String) (c : ℕ) : ShipOk (spawnShip v u c) := by
  refine ⟨by norm_num [spawnShip], by norm_num [spawnShip], by norm_num [spawnShip]⟩

theorem shipOk_resetShipAt (i : ℕ) (s : Ship) : ShipOk (resetShipAt i s) := by
  refine ⟨by norm_num [resetShipAt], by norm_num [resetShipAt],
    by norm_num [resetShipAt]⟩

theorem applySev_preserves_ok (sb : List (Option Ship) × List (Option Body))
    (sev : SEvent) (h : ∀ i s, getO sb.1 i = some s → ShipOk s) :
    ∀ i s, getO (applySev sb sev).1 i = some s → ShipOk s := by
  intro i s hs
  cases sev with
  | spawn v u c =>
    by_cases hiv : i = v
    · subst hiv
      rw [applySev] at hs
      rw [getO_setO_self] at hs
      injection hs with hs
      rw [← hs]
      exact shipOk_spawnShip _ _ _
    · rw [applySev] at hs
      rw [getO_setO_ne _ _ _ _ hiv] at hs
      exact h i s hs
  | destroy v =>
    by_cases hiv : i = v
    · subst hiv
      rw [applySev] at hs
      rw [getO_delO_self] at hs
      exact Option.noConfusion hs
    · rw [applySev] at hs
      rw [getO_delO_ne _ _ _ hiv] at hs
      exact h i s hs

theorem applyServerEventsAll_preserves_ok :
    ∀ (sevs : List SEvent) (ships : List (Option Ship))
      (bodies : List (Option Body)),
      (∀ i s, getO ships i = some s → ShipOk s) →
      ∀ i s, getO (applyServerEventsAll sevs ships bodies).1 i = some s →
        ShipOk s := by
  intro sevs
  induction sevs with
  | nil => intro ships bodies h; exact h
  | cons sev rest ih =>
    intro ships bodies h
    have hstep := applySev_preserves_ok (ships, bodies) sev h
    exact ih (applySev (ships, bodies) sev).1 (applySev (ships, bodies) sev).2
      hstep

theorem applyInputToSlot_fst_fields (cfg : Config) (hfr : ℤ → ℤ → Bool)
    (state : GameState) (evs : List GameEvent) (s : Ship) (b : Body) :
    ∃ inp, (applyInputToSlot cfg hfr state evs s b).1 = { s with input := inp } := by
  rw [applyInputToSlot]
  by_cases h : controlEligible hfr state s
  · rw [if_pos h]
    exact ⟨_, rfl⟩
  · rw [if_neg h]
    exact ⟨_, rfl⟩

theorem applyInputs_preserves_ok (cfg : Config) (hfr : ℤ → ℤ → Bool)
    (state : GameState) (events : List (Option (List GameEvent)))
    (ships : List (Option Ship)) (bodies : List (Option Body))
    (h : ∀ i s, getO ships i = some s → ShipOk s) :
    ∀ i s, getO (applyInputs cfg hfr state events ships bodies).1 i = some s →
      ShipOk s := by
  intro i s hs
  rw [applyInputs] at hs
  rw [getO_rangeMap] at hs
  by_cases hlt : i < ships.length
  · rw [if_pos hlt] at hs
    cases hos : getO ships i with
    | none =>
      rw [hos] at hs
      cases hob : getO bodies i with
      | none => rw [hob] at hs; exact Option.noConfusion hs
      | some b => rw [hob] at hs; exact Option.noConfusion hs
    | some s0 =>
      have hok := h i s0 hos
      rw [hos] at hs
      cases hob : getO bodies i with
      | none =>
        rw [hob] at hs
        injection hs with hs
        rw [← hs]
        exact hok
      | some b =>
        rw [hob] at hs
        injection hs with hs
        obtain ⟨inp, hinp⟩ := applyInputToSlot_fst_fields cfg hfr state
          ((getO events i).getD []) s0 b
        rw [hinp] at hs
        rw [← hs]
        exact hok
  · rw [if_neg hlt] at hs
    exact Option.noConfusion hs

theorem lapTransition_ok (cfg : Config) (hfr : ℤ → ℤ → Bool) (state : GameState)
    (counter : ℚ) (s : Ship) (cp : ℤ) (lt1 : List ℚ)
    (hok : ShipOk s) (hlen : lt1.length = s.laptimes.length) :
    0 ≤ (lapTransition cfg hfr state counter s cp lt1).2.1 ∧
    (lapTransition cfg hfr state counter s cp lt1).2.1 + 1 =
      ((lapTransition cfg hfr state counter s cp lt1).2.2.1.length : ℤ) ∧
    (lapTransition cfg hfr state counter s cp lt1).1 ≤
      (lapTransition cfg hfr state counter s cp lt1).2.1 := by
  obtain ⟨h0, h1, h2⟩ := hok
  have hcast : (lt1.length : ℤ) = (s.laptimes.length : ℤ) := by
    rw [hlen]
  have happ : ((lt1 ++ [0]).length : ℤ) = (lt1.length : ℤ) + 1 := by
    simp
  simp only [lapTransition]
  by_cases c1 : cp = s.checkpoint ∨ cp = s.checkpoint - 1 ∨ cp = s.checkpoint + 1
  · rw [if_pos c1]
    refine ⟨h0, ?_, h2⟩
    show s.currentLaptime + 1 = (lt1.length : ℤ)
    omega
  · rw [if_neg c1]
    by_cases c2 : s.checkpoint + 1 < cp
    · rw [if_pos c2]
      by_cases c3 : hfr s.lap s.checkpoint = false ∧
          hfr (s.lap + 1) s.checkpoint = true ∧ state = GameState.IN_PROGRESS
      · rw [if_pos c3]
        by_cases c4 : s.currentLaptime < s.lap + 1
        · rw [if_pos c4]
          refine ⟨?_, ?_, ?_⟩
          · show (0 : ℤ) ≤ s.lap + 1
            omega
          · show s.lap + 1 + 1 = ((lt1 ++ [0]).length : ℤ)
            omega
          · show s.lap + 1 ≤ s.lap + 1
            omega
        · rw [if_neg c4]
          refine ⟨h0, ?_, ?_⟩
          · show s.currentLaptime + 1 = (lt1.length : ℤ)
            omega
          · show s.lap + 1 ≤ s.currentLaptime
            omega
      · rw [if_neg c3]
        by_cases c4 : s.currentLaptime < s.lap + 1
        · rw [if_pos c4]
          refine ⟨?_, ?_, ?_⟩
          · show (0 : ℤ) ≤ s.lap + 1
            omega
          · show s.lap + 1 + 1 = ((lt1 ++ [0]).length : ℤ)
            omega
          · show s.lap + 1 ≤ s.lap + 1
            omega
        · rw [if_neg c4]
          refine ⟨h0, ?_, ?_⟩
          · show s.currentLaptime + 1 = (lt1.length : ℤ)
            omega
          · show s.lap + 1 ≤ s.currentLaptime
            omega
    · rw [if_neg c2]
      refine ⟨h0, ?_, ?_⟩
      · show s.currentLaptime + 1 = (lt1.length : ℤ)
        omega
      · show s.lap - 1 ≤ s.currentLaptime
        omega

@[simp] theorem headO_nil {α : Type _} : headO ([] : List (Option α)) = none := rfl

theorem processShip_nextS_ok (cfg : Config) (hfr : ℤ → ℤ → Bool)
    (map : ℤ → ℤ → Option CellVal) (dt : ℚ) (state : GameState) (counter : ℚ)
    (os : Option Ship) (ob : Option Body)
    (h : ∀ s0, os = some s0 → ShipOk s0) :
    ∀ s', (processShip cfg hfr map dt state counter os ob).nextS = some s' →
      ShipOk s' := by
  intro s' hs'
  cases ob with
  | none => exact Option.noConfusion hs'
  | some b =>
    cases os with
    | none => exact Option.noConfusion hs'
    | some s =>
      have hok := h s rfl
      have hlen : (if hfr s.lap s.checkpoint = false then
          s.laptimes.set s.currentLaptime.toNat
            (s.laptimes.getD s.currentLaptime.toNat 0 + dt / 1000)
        else s.laptimes).length = s.laptimes.length := by
        by_cases hh : hfr s.lap s.checkpoint = false
        · rw [if_pos hh, List.length_set]
        · rw [if_neg hh]
      have hli := lapTransition_ok cfg hfr state counter s
        ((checkpointAt map (cellRow cfg b) (cellCol cfg b)).getD s.checkpoint)
        _ hok hlen
      injection hs' with hrec
      rw [← hrec]
      exact ⟨hli.1, hli.2.1, hli.2.2⟩

theorem processAll_nextS_ok (cfg : Config) (hfr : ℤ → ℤ → Bool)
    (map : ℤ → ℤ → Option CellVal) (dt : ℚ) :
    ∀ (bs : List (Option Body)) (ss : List (Option Ship)) (state : GameState)
      (counter : ℚ),
      (∀ i s, getO ss i = some s → ShipOk s) →
      ∀ i s', getO (processAll cfg hfr map dt bs ss state counter).nextS i =
        some s' → ShipOk s' := by
  intro bs
  induction bs with
  | nil =>
    intro ss state counter h i s' hs'
    rw [processAll_nil] at hs'
    simp at hs'
  | cons ob rest ih =>
    intro ss state counter h i s' hs'
    rw [processAll_cons] at hs'
    cases i with
    | zero =>
      simp only [getO_cons_zero] at hs'
      apply processShip_nextS_ok cfg hfr map dt state counter (headO ss) ob ?_ s'
        hs'
      intro s0 hs0
      have hg : getO ss 0 = some s0 := by
        cases ss with
        | nil =>
          rw [headO_nil] at hs0
          exact Option.noConfusion hs0
        | cons x xs => exact hs0
      exact h 0 s0 hg
    | succ j =>
      simp only [getO_cons_succ] at hs'
      have htail : ∀ k s, getO ss.tail k = some s → ShipOk s := by
        intro k s hk
        cases ss with
        | nil => simp at hk
        | cons x xs => exact h (k + 1) s hk
      exact ih ss.tail _ _ htail j s' hs'

theorem evolveFinish_ships_cases (cfg : Config) (hfr : ℤ → ℤ → Bool)
    (pr : ProcRes) :
    (evolveFinish cfg hfr pr).ships = pr.nextS ∨
    (evolveFinish cfg hfr pr).ships = resetShips pr.nextS := by
  cases pr with
  | mk mu nx st cnt =>
    cases st with
    | IN_PROGRESS => exact Or.inl rfl
    | FINISH_COUNTDOWN =>
      simp only [evolveFinish]
      by_cases hc : ((⌈cnt - 1⌉ : ℤ) : ℚ) = 0 ∨ mu.all (shipFinished hfr) = true
      · rw [if_pos hc]
        exact Or.inl rfl
      · rw [if_neg hc]
        exact Or.inl rfl
    | RESULTS_SCREEN =>
      simp only [evolveFinish]
      by_cases hc : ((⌈cnt - 1⌉ : ℤ) : ℚ) = 0
      · rw [if_pos hc]
        exact Or.inr rfl
      · rw [if_neg hc]
        exact Or.inl rfl

theorem evolve_preserves_ok (t : Turn) (cfg : Config) (hfr : ℤ → ℤ → Bool)
    (map : ℤ → ℤ → Option CellVal) (bodies : List (Option Body))
    (step : ℕ → Body → Body) (dt : ℚ) (h : TurnOk t) :
    TurnOk (t.evolve cfg hfr map bodies step dt) := by
  intro i s hs
  have h1 : ∀ i s, getO (evolveSB t bodies).1 i = some s → ShipOk s :=
    applyServerEventsAll_preserves_ok t.serverEvents t.ships
      (ensureBodies t.ships bodies) h
  have h2 : ∀ i s, getO (evolveSB2 t cfg hfr bodies).1 i = some s → ShipOk s :=
    applyInputs_preserves_ok cfg hfr t.state t.events (evolveSB t bodies).1
      (evolveSB t bodies).2 h1
  have h3 : ∀ i s', getO (evolvePr t cfg hfr map bodies step dt).nextS i =
      some s' → ShipOk s' :=
    processAll_nextS_ok cfg hfr map dt (evolveBodies t cfg hfr bodies step)
      (evolveSB2 t cfg hfr bodies).1 t.state t.counter h2
  rcases evolveFinish_ships_cases cfg hfr (evolvePr t cfg hfr map bodies step dt)
    with hc | hc
  · exact h3 i s (by rw [Turn.evolve, hc] at hs; exact hs)
  · have hrs : getO (resetShips (evolvePr t cfg hfr map bodies step dt).nextS) i =
        some s := by
      rw [Turn.evolve, hc] at hs
      exact hs
    rw [getO_resetShips] at hrs
    cases hg : getO (evolvePr t cfg hfr map bodies step dt).nextS i with
    | none =>
      rw [hg] at hrs
      exact Option.noConfusion hrs
    | some a =>
      rw [hg] at hrs
      replace hrs : some (resetShipAt i a) = some s := hrs
      injection hrs with hh
      rw [← hh]
      exact shipOk_resetShipAt i a

theorem reachable_turnOk : ∀ t : Turn, Reachable t → TurnOk t := by
  intro t hr
  induction hr with
  | base events state counter =>
    intro i s hs
    simp at hs
  | addEvents shipId evs hr ih =>
    intro i s hs
    exact ih i s hs
  | addServerEvent evs hr ih =>
    intro i s hs
    exact ih i s hs
  | evolve cfg hfr map bodies step dt hr ih =>
    exact evolve_preserves_ok _ cfg hfr map bodies step dt ih

/-- C10: in every turn reachable by accumulating events (spawns included)
and evolving, every live vessel's `currentLaptime` equals
`laptimes.length − 1` and is nonnegative, so it always indexes the last
entry of `laptimes`. -/
theorem reachable_currentLaptime_index (t : Turn) (hr : Reachable t) (i : ℕ)
    (s : Ship) (hs : getO t.ships i = some s) :
    s.currentLaptime = (s.laptimes.length : ℤ) - 1 ∧ 0 ≤ s.currentLaptime := by
  obtain ⟨h0, h1, h2⟩ := reachable_turnOk t hr i s hs
  omega

/-- A reachable turn holding one vessel: spawn into an empty turn, then
evolve once. -/
def tC10 : Turn :=
  ((Turn.mk [] [] [] .IN_PROGRESS 0).addServerEvent [SEvent.spawn 0 "a" 0]).evolve
    cfgC hfrNever mapNone [] stepId 0

/-- C10 witness: the lone vessel of `tC10` satisfies the invariant. -/
theorem reachable_currentLaptime_index_witness :
    (spawnShip 0 "a" 0).currentLaptime =
      ((spawnShip 0 "a" 0).laptimes.length : ℤ) - 1 ∧
    0 ≤ (spawnShip 0 "a" 0).currentLaptime :=
  reachable_currentLaptime_index tC10
    (Reachable.evolve cfgC hfrNever mapNone [] stepId 0
      (Reachable.addServerEvent [SEvent.spawn 0 "a" 0]
        (Reachable.base [] .IN_PROGRESS 0)))
    0 (spawnShip 0 "a" 0)
    (by norm_num [tC10, Turn.evolve, Turn.addServerEvent, evolveFinish, evolvePr,
      evolveBodies, evolveSB2, evolveSB, applyServerEventsAll, applySev,
      ensureBodies, rangeMap, rangeMapAux, getO, setO, headO, applyInputs,
      applyInputToSlot, controlEligible, hfrNever, foldEvents, stepBodies,
      stepId, processAll, processShip, lapTransition, checkpointAt, mapNone,
      cellRow, cellCol, cfgC, spawnShip, spawnBody, positionForShipId,
      defaultBody, resetBody, PlayerInput.init, shipFinished, List.getD])
